import Mathlib

/-!
# Verification of the apt.dat parsing core (`xplane_airports.AptDat`)

A shallow embedding, in Lean 4, of the data model and operations of
`src/xplane_airports/AptDat.py`: the line tokenizer, the record-code
taxonomy, the `Airport` entity with its derived accessors (name, id,
elevation, ATC flag, latitude/longitude, metadata, taxi-route network),
and the `AptDat` file container with its parser (`_parse_text`),
serializer (`write_to_disk`) and identifier lookup (`search_by_id`).

Python exceptions (ValueError from `int()`/`float()`/enum coercion,
IndexError from out-of-range indexing, TypeError from mixed-type
comparisons, AssertionError) are modelled by `Option`/`Except` results:
`none` / `.error` means the corresponding Python code raises.
Python `float` values are modelled as rationals (`ℚ`); the claims settled
here concern which tokens are selected and combined, not IEEE rounding.
-/

namespace XPAirports

/-! ## Models of the Python string primitives used by the source -/

/-- The whitespace characters recognised by Python's `str.strip` /
`int()` (restricted to the ASCII range, which is all the apt.dat format
uses). -/
def isPySpace (c : Char) : Bool :=
  c = ' ' || c = '\t' || c = '\n' || c = '\r' || c = '\x0b' || c = '\x0c'

/-- Model of Python `str.strip()` on a character list: drop whitespace
from both ends. -/
def pyStripL (l : List Char) : List Char :=
  ((l.dropWhile isPySpace).reverse.dropWhile isPySpace).reverse

/-- Model of Python `str.strip()`. -/
def pyStrip (s : String) : String :=
  ⟨pyStripL s.toList⟩

/-- Model of Python `str.lstrip()`. -/
def pyLStrip (s : String) : String :=
  ⟨s.toList.dropWhile isPySpace⟩

/-- Model of Python `str.split(sep)` for a single-character separator:
split at every occurrence of `c` (empty pieces are kept, as in Python). -/
def splitChar (c : Char) : List Char → List (List Char)
  | [] => [[]]
  | a :: rest =>
    match splitChar c rest with
    | [] => if a = c then [[], []] else [[a]]  -- unreachable: result is never []
    | h :: t => if a = c then [] :: h :: t else (a :: h) :: t

/-- The whitespace-delimited fields of a line the way
`line.strip().split(' ')` plus the `if t` filter produces them
(`AptDatLine.tokenize`): strip the line, split on single spaces, drop
empty pieces.  Note only the space character is a delimiter. -/
def spaceFields (s : String) : List (List Char) :=
  (splitChar ' ' (pyStripL s.toList)).filter (· ≠ [])

/-- Value of an ASCII digit character. -/
def charDigitVal (c : Char) : Nat := c.toNat - 48

/-- Decimal reading of a nonempty all-digit character list. -/
def pyDigits? (l : List Char) : Option Nat :=
  if l ≠ [] ∧ l.all Char.isDigit then
    some (l.foldl (fun acc c => 10 * acc + charDigitVal c) 0)
  else
    none

/-- Model of Python `int(s)` (restricted to the decimal forms that occur
in apt.dat files: optional surrounding whitespace, optional sign, a
nonempty run of ASCII digits).  `none` models `ValueError`. -/
def pyInt? (s : String) : Option Int :=
  match pyStripL s.toList with
  | [] => none
  | c :: rest =>
    if c = '-' then (pyDigits? rest).map (fun n => -(n : Int))
    else if c = '+' then (pyDigits? rest).map (fun n => (n : Int))
    else (pyDigits? (c :: rest)).map (fun n => (n : Int))

/-- Model of Python `float(s)` (restricted to decimal literals: optional
sign, digits, optional fractional part), producing a rational.  `none`
models `ValueError`. -/
def pyFloat? (s : String) : Option ℚ :=
  let body : List Char → Option ℚ := fun l =>
    match splitChar '.' l with
    | [ip] => (pyDigits? ip).map (fun n => (n : ℚ))
    | [ip, fp] =>
      if ip = [] ∧ fp = [] then none
      else
        match (if ip = [] then some 0 else pyDigits? ip),
              (if fp = [] then some 0 else pyDigits? fp) with
        | some i, some f => some ((i : ℚ) + (f : ℚ) / (10 : ℚ) ^ fp.length)
        | _, _ => none
    | _ => none
  match pyStripL s.toList with
  | [] => none
  | c :: rest =>
    if c = '-' then (body rest).map (fun q => -q)
    else if c = '+' then body rest
    else body (c :: rest)

/-- Fuel-driven digit accumulator behind `pyNatRepr` (structural
recursion so that concrete values reduce in the kernel). -/
def pyNatReprAux : Nat → Nat → List Char → List Char
  | 0, _, acc => acc
  | fuel + 1, n, acc =>
    let d := Nat.digitChar (n % 10)
    if n / 10 = 0 then d :: acc else pyNatReprAux fuel (n / 10) (d :: acc)

/-- Model of Python `str(n)` for a natural number: its decimal digit
string. -/
def pyNatRepr (n : Nat) : List Char :=
  pyNatReprAux (n + 1) n []

/-- Model of Python `str(v)` for an `int` (used by the f-strings in the
serializers). -/
def pyIntRepr (v : Int) : List Char :=
  if v < 0 then '-' :: pyNatRepr v.natAbs else pyNatRepr v.toNat

/-- `str(v)` as a `String`. -/
def pyIntStr (v : Int) : String := ⟨pyIntRepr v⟩

/-- Model of Python substring containment `pat in s` on char lists. -/
def containsSub (pat : List Char) : List Char → Bool
  | [] => pat.isEmpty
  | c :: rest => pat.isPrefixOf (c :: rest) || containsSub pat rest

/-- Model of Python `pat in s` for strings. -/
def containsSubS (pat s : String) : Bool :=
  containsSub pat.toList s.toList

/-- Model of `raw.split(' ', 1)[0]` applied to an already-stripped
string: everything before the first space. -/
def firstSpaceTok (s : String) : String :=
  ⟨(pyStripL s.toList).takeWhile (· ≠ ' ')⟩

/-- Model of Python `s.startswith(pre)`. -/
def pyStartsWith (s pre : String) : Bool :=
  pre.toList.isPrefixOf s.toList

/-- Model of the Python slice `s[-1:]`: the last character as a string
(empty when `s` is empty). -/
def pyLastChar (s : String) : String :=
  match s.toList.getLast? with
  | none => ""
  | some c => ⟨[c]⟩

/-- Model of Python `s.upper()` (ASCII; apt.dat identifiers are
ASCII). -/
def pyUpper (s : String) : String :=
  ⟨s.toList.map Char.toUpper⟩

/-! ## Record codes and the tokenizer (`RowCode`, `AptDatLine.tokenize`) -/

/-- The integer values of every member of the `RowCode` enumeration in
`AptDat.py` (including the legacy `_RUNWAY_OLD = 10`). -/
def knownRowCodes : List Int :=
  [1, 10, 14, 15, 16, 17, 18, 19, 50, 51, 52, 53, 54, 55, 56, 57, 99, 20, 21,
   100, 101, 102, 110, 120, 130, 111, 112, 113, 114, 115, 116,
   1000, 1001, 1002, 1003, 1004,
   1050, 1051, 1052, 1053, 1054, 1055, 1056, 1057,
   1100, 1101, 1110,
   1200, 1201, 1202, 1203, 1204, 1206,
   1300, 1301, 1302, 1400, 1401]

/-- `airport_header_codes = (AIRPORT_HEADER, SEAPORT_HEADER, HELIPORT_HEADER)`. -/
def airportHeaderCodes : List Int := [1, 16, 17]

/-- `runway_codes = (LAND_RUNWAY, WATER_RUNWAY, HELIPAD)`. -/
def runwayCodes : List Int := [100, 101, 102]

/-- One element of a tokenized line: the leading element is a `RowCode`
(carried as its integer value), the remaining elements are raw strings,
exactly as in the `List[Union[RowCode, str]]` of the source. -/
inductive Tok where
  | code (n : Int)
  | str (s : String)
deriving DecidableEq, Repr

/-- Python `int(x)` applied to a token (an `IntEnum` converts to its
value; a string goes through `int()`). -/
def tokInt? : Tok → Option Int
  | .code n => some n
  | .str s => pyInt? s

/-- Python `float(x)` applied to a token. -/
def tokFloat? : Tok → Option ℚ
  | .code n => some (n : ℚ)
  | .str s => pyFloat? s

/-- Extract the string payload of a token where Python requires a `str`
(`' '.join`, `.startswith`, ...); `none` models the `TypeError` /
`AttributeError` raised on a `RowCode`. -/
def tokStr? : Tok → Option String
  | .code _ => none
  | .str s => some s

/-- The string payloads of a token list; `none` models the `TypeError`
Python's `join` raises on the first non-string element. -/
def strsOf? : List Tok → Option (List String)
  | [] => some []
  | Tok.str s :: rest => (strsOf? rest).map (s :: ·)
  | Tok.code _ :: _ => none

/-- `' '.join(tokens)` over a token slice: every element must be a
string. -/
def joinToks? (ts : List Tok) : Option String :=
  (strsOf? ts).map (fun ss => String.intercalate " " ss)

/-- `AptDatLine.tokenize`: strip the line, split it on single spaces,
drop empty fields, and coerce the first field with `RowCode(int(_))`.
`none` models the `ValueError` raised either by `int()` on a
non-integer first field or by the `RowCode` enum on an integer that is
not a member. -/
def tokenize (line : String) : Option (List Tok) :=
  match spaceFields line with
  | [] => some []
  | f :: fs =>
    match pyInt? ⟨f⟩ with
    | none => none
    | some n =>
      if n ∈ knownRowCodes then
        some (Tok.code n :: fs.map (fun cs => Tok.str ⟨cs⟩))
      else
        none

/-- Is this token one of the `airport_header_codes`? -/
def Tok.isAirportHeader : Tok → Bool
  | .code n => n ∈ airportHeaderCodes
  | .str _ => false

/-- Is this token one of the `runway_codes`? -/
def Tok.isRunway : Tok → Bool
  | .code n => n ∈ runwayCodes
  | .str _ => false

/-! ## The taxi-route network (`TaxiRouteNode`, `TaxiRouteEdge`,
`TaxiRouteNetwork`) -/

/-- `IcaoWidth`: the six taxiway width classes. -/
inductive IcaoWidth where
  | A | B | C | D | E | F
deriving DecidableEq, Repr

/-- `IcaoWidth.from_str`, with the surrounding `suppress(LookupError)`
folded in: `none` models the suppressed `LookupError`. -/
def IcaoWidth.fromStr? : String → Option IcaoWidth
  | "A" => some .A
  | "B" => some .B
  | "C" => some .C
  | "D" => some .D
  | "E" => some .E
  | "F" => some .F
  | _ => none

/-- `TaxiRouteNode`: a node of the taxi routing network. -/
structure TaxiRouteNode where
  id : Int
  lon : ℚ
  lat : ℚ
deriving DecidableEq, Repr

/-- `TaxiRouteEdge`: an edge of the taxi routing network. -/
structure TaxiRouteEdge where
  node_begin : Int
  node_end : Int
  name : String
  is_runway : Bool
  one_way : Bool
  icao_width : Option IcaoWidth
deriving DecidableEq, Repr

/-- `TaxiRouteEdge.from_tokenized_line`.  `none` models the
uncaught exceptions: `IndexError` on a short line, `ValueError` from
`int()`, `TypeError`/`AttributeError` on a non-string field. -/
def TaxiRouteEdge.fromTokenizedLine? (tokens : List Tok) : Option TaxiRouteEdge := do
  let name ← joinToks? (tokens.drop 5)
  let nb ← (tokens.get? 1).bind tokInt?
  let ne ← (tokens.get? 2).bind tokInt?
  let t3 ← tokens.get? 3
  let oneWay := t3 = Tok.str "oneway"
  let t4 ← tokens.get? 4
  let taxiwayType ← tokStr? t4
  if pyStartsWith taxiwayType "taxiway_" then
    pure { node_begin := nb, node_end := ne, name := name, is_runway := false,
           one_way := oneWay, icao_width := IcaoWidth.fromStr? (pyLastChar taxiwayType) }
  else if taxiwayType = "runway" then
    pure { node_begin := nb, node_end := ne, name := name, is_runway := true,
           one_way := oneWay, icao_width := none }
  else
    pure { node_begin := nb, node_end := ne, name := name, is_runway := false,
           one_way := oneWay, icao_width := none }

/-- Insertion into the model of a Python `dict` (an association list in
insertion order; assigning to an existing key overwrites in place). -/
def dictInsert {α β : Type} [DecidableEq α] (k : α) (v : β) :
    List (α × β) → List (α × β)
  | [] => [(k, v)]
  | (k', v') :: rest =>
    if k' = k then (k, v) :: rest else (k', v') :: dictInsert k v rest

/-- `TaxiRouteNetwork`: nodes keyed by id (dict in insertion order) plus
the edge list. -/
structure TaxiRouteNetwork where
  nodes : List (Int × TaxiRouteNode)
  edges : List TaxiRouteEdge
deriving DecidableEq, Repr

/-- The node built from one `1201` line:
`TaxiRouteNode(id=int(tokens[4]), lon=float(tokens[2]), lat=float(tokens[1]))`.
`none` models `IndexError`/`ValueError`. -/
def taxiRouteNodeOfTokens? (tokens : List Tok) : Option TaxiRouteNode := do
  let id ← (tokens.get? 4).bind tokInt?
  let lon ← (tokens.get? 2).bind tokFloat?
  let lat ← (tokens.get? 1).bind tokFloat?
  pure { id := id, lon := lon, lat := lat }

/-- `TaxiRouteNetwork.from_tokenized_lines`: filter the `1201` lines into
the node dict, the `1202` lines into the edge list.  Accessing
`line[0]` of an empty tokenized line raises `IndexError` (`none`). -/
def TaxiRouteNetwork.fromTokenizedLines? (lines : List (List Tok)) :
    Option TaxiRouteNetwork := do
  let nodes ← lines.foldlM
    (fun acc ts => do
      match ts with
      | [] => none
      | t0 :: _ =>
        if t0 = Tok.code 1201 then do
          let node ← taxiRouteNodeOfTokens? ts
          pure (dictInsert node.id node acc)
        else
          pure acc)
    ([] : List (Int × TaxiRouteNode))
  let edges ← lines.foldlM
    (fun acc ts => do
      match ts with
      | [] => none
      | t0 :: _ =>
        if t0 = Tok.code 1202 then do
          let e ← TaxiRouteEdge.fromTokenizedLine? ts
          pure (acc ++ [e])
        else
          pure acc)
    ([] : List TaxiRouteEdge)
  pure { nodes := nodes, edges := edges }

/-! ## Metadata keys and the `Airport` entity -/

/-- The `MetadataKey` enumeration. -/
inductive MetadataKey where
  | CITY | COUNTRY | DATUM_LAT | DATUM_LON | FAA_CODE | LABEL_3D_OR_2D
  | IATA_CODE | ICAO_CODE | LOCAL_CODE | LOCAL_AUTHORITY | REGION_CODE
  | STATE | TRANSITION_ALT | TRANSITION_LEVEL
deriving DecidableEq, Repr

/-- `MetadataKey(value)`: construction from the string value; `none`
models the `ValueError` on an unknown key (which the source suppresses). -/
def MetadataKey.fromStr? : String → Option MetadataKey
  | "city" => some .CITY
  | "country" => some .COUNTRY
  | "datum_lat" => some .DATUM_LAT
  | "datum_lon" => some .DATUM_LON
  | "faa_code" => some .FAA_CODE
  | "gui_label" => some .LABEL_3D_OR_2D
  | "iata_code" => some .IATA_CODE
  | "icao_code" => some .ICAO_CODE
  | "local_code" => some .LOCAL_CODE
  | "local_authority" => some .LOCAL_AUTHORITY
  | "region_code" => some .REGION_CODE
  | "state" => some .STATE
  | "transition_alt" => some .TRANSITION_ALT
  | "transition_level" => some .TRANSITION_LEVEL
  | _ => none

/-- `Airport`: raw lines, spec version, and the intermediate
tokenization, as in the dataclass (the `from_file` path plays no role in
the verified operations and is omitted). -/
structure Airport where
  raw_lines : List String
  xplane_version : Int
  tokenized_lines : List (List Tok)
deriving DecidableEq, Repr

/-- `Airport.__str__`: the raw lines joined with the WED line ending,
as a character list. -/
def Airport.strChars (a : Airport) : List Char :=
  List.intercalate ['\n'] (a.raw_lines.map String.toList)

/-- `Airport.head(num_lines)`:
`join(islice(raw_lines, 0, num_lines - 1))`; `none` models the
`ValueError` `islice` raises on a negative stop. -/
def Airport.head? (a : Airport) (numLines : Int) : Option String :=
  if numLines - 1 < 0 then none
  else some ⟨List.intercalate ['\n']
    ((a.raw_lines.take (numLines - 1).toNat).map String.toList)⟩

/-- `Airport.name`: `' '.join(self.tokenized_lines[0][5:])`; `none`
models `IndexError` on an airport with no lines (a Python slice of a
short list is just empty, so a short header does not fail). -/
def Airport.name? (a : Airport) : Option String := do
  let header ← a.tokenized_lines.get? 0
  joinToks? (header.drop 5)

/-- `Airport.id`: `self.tokenized_lines[0][4]` followed by its use as a
string; `none` models `IndexError`. -/
def Airport.id? (a : Airport) : Option String := do
  let header ← a.tokenized_lines.get? 0
  let t ← header.get? 4
  tokStr? t

/-- `Airport.has_atc`: `self.tokenized_lines[0][2] == '1'`; `none`
models `IndexError`. -/
def Airport.hasAtc? (a : Airport) : Option Bool := do
  let header ← a.tokenized_lines.get? 0
  let t ← header.get? 2
  pure (t = Tok.str "1")

/-- `Airport.elevation_ft_amsl`: `float(self.tokenized_lines[0][1])`. -/
def Airport.elevation? (a : Airport) : Option ℚ := do
  let header ← a.tokenized_lines.get? 0
  let t ← header.get? 1
  tokFloat? t

/-- `Airport.metadata`: scan the `1302` lines in order; for each, the
value is `' '.join(tokens[2:])` when more than two tokens are present
and `''` otherwise, and `out[MetadataKey(tokens[1])] = value` with the
`ValueError` of an unknown key suppressed.  `none` models the uncaught
exceptions (`IndexError` on a bare `1302` line or an empty tokenized
line, `TypeError` in the join). -/
def metadataStep (acc : List (MetadataKey × String)) (ts : List Tok) :
    Option (List (MetadataKey × String)) :=
  match ts with
  | [] => none
  | t0 :: _ =>
    if t0 = Tok.code 1302 then do
      let t1 ← ts.get? 1
      let val ← if ts.length > 2 then joinToks? (ts.drop 2) else pure ""
      match t1 with
      | Tok.code _ => pure acc
      | Tok.str key =>
        match MetadataKey.fromStr? key with
        | none => pure acc
        | some k => pure (dictInsert k val acc)
    else
      pure acc

/-- `Airport.metadata`: the fold of `metadataStep` over all tokenized
lines, starting from the empty dict. -/
def Airport.metadata? (a : Airport) : Option (List (MetadataKey × String)) :=
  a.tokenized_lines.foldlM metadataStep []

/-- Lookup in the metadata dict. -/
def metaLookup (l : List (MetadataKey × String)) (k : MetadataKey) : Option String :=
  (l.find? (fun p => p.1 = k)).map (·.2)

/-- `Airport._first_runway_tokens` /  `Airport._runway_lines`: the first
tokenized line whose leading token is a runway code, scanning in file
order; the generator stops at the first hit, so later lines are never
touched.  `none` models both the `IndexError` on an empty tokenized
line encountered during the scan and the `assert` firing when no runway
line exists. -/
def firstRunwayTokens? : List (List Tok) → Option (List Tok)
  | [] => none
  | ts :: rest =>
    match ts with
    | [] => none
    | t0 :: _ => if t0.isRunway then some ts else firstRunwayTokens? rest

/-- `Airport._rwy_center`:
`0.5 * (float(rwy_tokens[start]) + float(rwy_tokens[end]))`. -/
def rwyCenter? (ts : List Tok) (start stop : Nat) : Option ℚ := do
  let x ← (ts.get? start).bind tokFloat?
  let y ← (ts.get? stop).bind tokFloat?
  pure ((1 / 2 : ℚ) * (x + y))

/-- `Airport.latitude`: dispatch on the subtype of the first runway
line. -/
def Airport.latitude? (a : Airport) : Option ℚ := do
  let rwy0 ← firstRunwayTokens? a.tokenized_lines
  let t0 ← rwy0.get? 0
  if t0 = Tok.code 100 then rwyCenter? rwy0 9 18
  else if t0 = Tok.code 101 then rwyCenter? rwy0 4 7
  else if t0 = Tok.code 102 then (rwy0.get? 2).bind tokFloat?
  else none

/-- `Airport.longitude`: dispatch on the subtype of the first runway
line. -/
def Airport.longitude? (a : Airport) : Option ℚ := do
  let rwy0 ← firstRunwayTokens? a.tokenized_lines
  let t0 ← rwy0.get? 0
  if t0 = Tok.code 100 then rwyCenter? rwy0 10 19
  else if t0 = Tok.code 101 then rwyCenter? rwy0 5 8
  else if t0 = Tok.code 102 then (rwy0.get? 3).bind tokFloat?
  else none

/-- `Airport.atc_network`:
`TaxiRouteNetwork.from_tokenized_lines(self.tokenized_lines)`. -/
def Airport.atcNetwork? (a : Airport) : Option TaxiRouteNetwork :=
  TaxiRouteNetwork.fromTokenizedLines? a.tokenized_lines

/-- `Airport.from_lines`: tokenize every line whose `lstrip()` is
nonempty; the raw lines are stored unfiltered. -/
def Airport.fromLines? (datLines : List String) (v : Int := 1100) : Option Airport := do
  let toks ← (datLines.filter (fun l => pyLStrip l ≠ "")).mapM tokenize
  pure { raw_lines := datLines, xplane_version := v, tokenized_lines := toks }

/-! ## The `AptDat` container: parsing, serialization, lookup -/

/-- `AptDat`: the ordered airport list plus the file's spec version (the
origin path plays no role in the verified operations and is omitted). -/
structure AptDat where
  airports : List Airport
  xplane_version : Int
deriving DecidableEq, Repr

/-- The loop state of `AptDat._parse_text`: the finished airports, the
raw-line buffer and the tokenized-line buffer of the airport in
progress. -/
structure ParseState where
  airports : List Airport
  raw : List String
  toks : List (List Tok)
deriving DecidableEq, Repr

/-- One iteration of the hot loop of `_parse_text`: tokenize the line
(`none` aborts the whole parse, as the uncaught `ValueError` does);
skip it if no tokens; on an airport-header code flush the nonempty
buffer and reseed it; otherwise append to the buffer. -/
def parseStep (v : Int) (st : ParseState) (line : String) : Option ParseState := do
  let tokenized ← tokenize line
  match tokenized with
  | [] => pure st
  | t0 :: _ =>
    if t0.isAirportHeader then
      if st.toks = [] then
        pure { airports := st.airports, raw := [line], toks := [tokenized] }
      else
        pure { airports := st.airports ++
                 [{ raw_lines := st.raw, xplane_version := v, tokenized_lines := st.toks }],
               raw := [line], toks := [tokenized] }
    else
      pure { airports := st.airports, raw := st.raw ++ [line],
             toks := st.toks ++ [tokenized] }

/-- The `for line in dat_text` loop of `_parse_text`. -/
def parseLoop (v : Int) (st : ParseState) : List String → Option ParseState
  | [] => some st
  | line :: rest => do
    let st' ← parseStep v st line
    parseLoop v st' rest

/-- The body scan of `_parse_text` (everything after the optional file
header has been stripped): run the loop, then finish off the final
airport, first dropping a trailing `FILE_END` record — and note the
final `append` is unconditional once the buffer is nonempty, even if the
pop just emptied it. -/
def parseBody (v : Int) (lines : List String) : Option (List Airport) := do
  let st ← parseLoop v ⟨[], [], []⟩ lines
  match st.toks with
  | [] => pure st.airports
  | _ :: _ => do
    let lastToks ← st.toks.getLast?
    let t0 ← lastToks.head?
    let (raw, toks) :=
      if t0 = Tok.code 99 then (st.raw.dropLast, st.toks.dropLast) else (st.raw, st.toks)
    pure (st.airports ++
      [{ raw_lines := raw, xplane_version := v, tokenized_lines := toks }])

/-- The generator signature that `_parse_text` looks for in line 2. -/
def wedSignature : String := "Generated by WorldEditor"

/-- `AptDat._parse_text` on a list of lines, with `v0` the container's
prior `xplane_version`: detect and strip the optional two-line file
header (line 1 is `A` or `I` after stripping, line 2 contains the
generator signature), read the version from line 2's leading field
(`assert`-ing it below 9999), then scan the body.  `none` models the
uncaught exceptions: `IndexError` touching `dat_text[0]`/`dat_text[1]`,
the `TypeError` of comparing a non-integer version with 9999, a
failed `assert`, and a `ValueError` escaping `tokenize`. -/
def parseTextV (v0 : Int) : List String → Option AptDat
  | [] => none
  | l0 :: rest0 =>
    if pyStrip l0 = "A" ∨ pyStrip l0 = "I" then
      match rest0 with
      | [] => none
      | l1 :: rest1 =>
        if containsSubS wedSignature l1 then do
          let v ← pyInt? (firstSpaceTok l1)
          if v < 9999 then do
            let airports ← parseBody v rest1
            pure { airports := airports, xplane_version := v }
          else none
        else do
          let airports ← parseBody v0 (l0 :: l1 :: rest1)
          pure { airports := airports, xplane_version := v0 }
    else do
      let airports ← parseBody v0 (l0 :: rest0)
      pure { airports := airports, xplane_version := v0 }

/-- `AptDat.from_file_text` composed with `str.splitlines`: parse with
the constructor's default version 1100. -/
def parseText (lines : List String) : Option AptDat :=
  parseTextV 1100 lines

/-- The lines contributed to the serialized file by one airport:
`f.write(str(apt)); f.write(WED_LINE_ENDING * 2)` emits the airport's
raw lines followed by one blank separator line — except that an airport
with no lines at all contributes two blank lines (`str(apt)` is empty,
so only the two newline characters are written). -/
def serializeChunk (a : Airport) : List String :=
  match a.raw_lines with
  | [] => ["", ""]
  | ls => ls ++ [""]

/-- Concatenated chunks of a list of airports. -/
def serializeChunks : List Airport → List String
  | [] => []
  | a :: rest => serializeChunk a ++ serializeChunks rest

/-- `AptDat.write_to_disk`, viewed as the list of lines of the file it
writes (the file text is these lines joined with `\n`, with a final
trailing newline): the `I` marker, the version/generator line, a blank
line, each airport's chunk, and the `99` terminator. -/
def AptDat.serializeLines (d : AptDat) : List String :=
  ["I", pyIntStr d.xplane_version ++ " " ++ wedSignature, ""]
    ++ serializeChunks d.airports ++ ["99"]

/-- The Python exceptions surfacing from `search_by_id`. -/
inductive PyErr where
  | indexError
  | attributeError
  | assertionError
deriving DecidableEq, Repr

/-- `apt.id.upper()`: the airport's id, uppercased; the error
distinguishes the `IndexError` of a short header from the
`AttributeError` of calling `.upper()` on a `RowCode`. -/
def Airport.idUpper (a : Airport) : Except PyErr String := do
  match a.tokenized_lines.get? 0 with
  | none => throw .indexError
  | some header =>
    match header.get? 4 with
    | none => throw .indexError
    | some t =>
      match t with
      | Tok.code _ => throw .attributeError
      | Tok.str s => pure (pyUpper s)

/-- `AptDat.search_by_id`: collect all airports whose uppercased id
equals the uppercased query (`search_by_predicate` builds the whole
list, so a raising predicate aborts the search); if any matched,
`assert` that exactly one did and return it; otherwise return `None`. -/
def AptDat.searchById (d : AptDat) (id : String) : Except PyErr (Option Airport) := do
  let found ← d.airports.foldlM
    (fun acc a => do
      let s ← a.idUpper
      pure (if s = pyUpper id then acc ++ [a] else acc))
    ([] : List Airport)
  match found with
  | [] => pure none
  | [a] => pure (some a)
  | _ :: _ :: _ => throw .assertionError

/-! ## Lemmas about the string primitives -/

theorem dropWhile_eq_nil_of_all {p : Char → Bool} {l : List Char}
    (h : ∀ c ∈ l, p c = true) : l.dropWhile p = [] := by
  induction l with
  | nil => rfl
  | cons c rest ih =>
    rw [List.dropWhile_cons, if_pos (h c (List.mem_cons_self c rest))]
    exact ih (fun x hx => h x (List.mem_cons_of_mem c hx))

theorem pyStripL_eq_nil_of_all {l : List Char}
    (h : ∀ c ∈ l, isPySpace c = true) : pyStripL l = [] := by
  unfold pyStripL
  rw [dropWhile_eq_nil_of_all h]
  rfl

theorem dropWhile_eq_self_of_head {p : Char → Bool} {l : List Char}
    (h : ∀ c, l.head? = some c → p c = false) : l.dropWhile p = l := by
  cases l with
  | nil => rfl
  | cons c rest => rw [List.dropWhile_cons, if_neg (by simp [h c rfl])]

theorem pyStripL_eq_self {l : List Char}
    (h1 : ∀ c, l.head? = some c → isPySpace c = false)
    (h2 : ∀ c, l.getLast? = some c → isPySpace c = false) : pyStripL l = l := by
  unfold pyStripL
  rw [dropWhile_eq_self_of_head h1,
      dropWhile_eq_self_of_head (fun c hc => h2 c (by rwa [List.head?_reverse] at hc)),
      List.reverse_reverse]

theorem takeWhile_append_eq {p : Char → Bool} {l₁ l₂ : List Char} {x : Char}
    (h1 : ∀ c ∈ l₁, p c = true) (h2 : p x = false) :
    (l₁ ++ x :: l₂).takeWhile p = l₁ := by
  induction l₁ with
  | nil => simpa [List.takeWhile_cons] using h2
  | cons c rest ih =>
    rw [List.cons_append, List.takeWhile_cons,
      if_pos (h1 c (List.mem_cons_self c rest))]
    rw [ih (fun y hy => h1 y (List.mem_cons_of_mem c hy))]

theorem containsSub_append_self {pat : List Char} (l : List Char) (hp : pat ≠ []) :
    containsSub pat (l ++ pat) = true := by
  induction l with
  | nil =>
    rw [List.nil_append]
    match pat, hp with
    | c :: rest, _ =>
      unfold containsSub
      simp [List.isPrefixOf_iff_prefix]
  | cons c rest ih =>
    rw [List.cons_append]
    unfold containsSub
    rw [ih]
    simp

/-! ## Correctness of the decimal representation model -/

theorem pyNatReprAux_eq_digits (fuel : Nat) :
    ∀ n acc, n ≠ 0 → n ≤ fuel →
      pyNatReprAux fuel n acc = ((Nat.digits 10 n).reverse.map Nat.digitChar) ++ acc := by
  induction fuel with
  | zero => intro n acc hn hf; omega
  | succ fuel ih =>
    intro n acc hn hf
    rw [pyNatReprAux]
    rw [Nat.digits_def' (by norm_num : 1 < 10) (Nat.pos_of_ne_zero hn)]
    by_cases hq : n / 10 = 0
    · rw [if_pos hq, hq]
      simp
    · rw [if_neg hq, ih (n / 10) _ hq (by omega)]
      simp

theorem pyNatRepr_eq_digits {n : Nat} (hn : n ≠ 0) :
    pyNatRepr n = (Nat.digits 10 n).reverse.map Nat.digitChar := by
  rw [pyNatRepr, pyNatReprAux_eq_digits (n + 1) n [] hn (by omega), List.append_nil]

theorem digitChar_spec {d : Nat} (hd : d < 10) :
    (Nat.digitChar d).isDigit = true ∧ charDigitVal (Nat.digitChar d) = d := by
  interval_cases d <;> exact ⟨by decide, by decide⟩

theorem isDigit_not_pySpace {c : Char} (h : c.isDigit = true) : isPySpace c = false := by
  unfold isPySpace
  have h32 : ¬ c = ' ' := by rintro rfl; exact absurd h (by decide)
  have h9 : ¬ c = '\t' := by rintro rfl; exact absurd h (by decide)
  have h10 : ¬ c = '\n' := by rintro rfl; exact absurd h (by decide)
  have h13 : ¬ c = '\r' := by rintro rfl; exact absurd h (by decide)
  have h11 : ¬ c = '\x0b' := by rintro rfl; exact absurd h (by decide)
  have h12 : ¬ c = '\x0c' := by rintro rfl; exact absurd h (by decide)
  simp [h32, h9, h10, h13, h11, h12]

theorem isDigit_ne_space {c : Char} (h : c.isDigit = true) : (c = ' ') = False := by
  simp only [eq_iff_iff, iff_false]
  rintro rfl; exact absurd h (by decide)

theorem pyNatRepr_all_digits {n : Nat} : ∀ c ∈ pyNatRepr n, c.isDigit = true := by
  by_cases hn : n = 0
  · subst hn; intro c hc; simp only [pyNatRepr, pyNatReprAux] at hc
    simp at hc; subst hc; decide
  · rw [pyNatRepr_eq_digits hn]
    intro c hc
    simp only [List.mem_map, List.mem_reverse] at hc
    obtain ⟨d, hd, rfl⟩ := hc
    exact (digitChar_spec (Nat.digits_lt_base (by norm_num) hd)).1

theorem foldl_digits_eq (ds : List Nat) (h : ∀ d ∈ ds, d < 10) (acc : Nat) :
    ((ds.reverse.map Nat.digitChar).foldl (fun a c => 10 * a + charDigitVal c) acc)
      = acc * 10 ^ ds.length + Nat.ofDigits 10 ds := by
  induction ds generalizing acc with
  | nil => simp
  | cons d rest ih =>
    have hmap : ((d :: rest).reverse.map Nat.digitChar)
        = (rest.reverse.map Nat.digitChar) ++ [Nat.digitChar d] := by
      simp
    rw [hmap, List.foldl_append, ih (fun x hx => h x (List.mem_cons_of_mem d hx)) acc]
    simp only [List.foldl_cons, List.foldl_nil]
    rw [(digitChar_spec (h d (List.mem_cons_self d rest))).2, Nat.ofDigits_cons,
      List.length_cons]
    ring

theorem pyDigits?_pyNatRepr (n : Nat) : pyDigits? (pyNatRepr n) = some n := by
  by_cases hn : n = 0
  · subst hn; decide
  · rw [pyNatRepr_eq_digits hn]
    unfold pyDigits?
    have hne : (Nat.digits 10 n).reverse.map Nat.digitChar ≠ [] := by
      simp [Nat.digits_ne_nil_iff_ne_zero.mpr hn]
    have hall : ((Nat.digits 10 n).reverse.map Nat.digitChar).all Char.isDigit = true := by
      rw [List.all_eq_true]
      intro c hc
      simp only [List.mem_map, List.mem_reverse] at hc
      obtain ⟨d, hd, rfl⟩ := hc
      exact (digitChar_spec (Nat.digits_lt_base (by norm_num) hd)).1
    rw [if_pos ⟨hne, hall⟩,
      foldl_digits_eq (Nat.digits 10 n) (fun d hd => Nat.digits_lt_base (by norm_num) hd) 0,
      Nat.ofDigits_digits]
    simp

theorem pyIntRepr_chars {v : Int} : ∀ c ∈ pyIntRepr v, c = '-' ∨ c.isDigit = true := by
  unfold pyIntRepr
  by_cases hv : v < 0
  · rw [if_pos hv]
    intro c hc
    rcases List.mem_cons.mp hc with h | h
    · exact Or.inl h
    · exact Or.inr (pyNatRepr_all_digits c h)
  · rw [if_neg hv]
    intro c hc
    exact Or.inr (pyNatRepr_all_digits c hc)

theorem pyIntRepr_no_space {v : Int} : ∀ c ∈ pyIntRepr v, isPySpace c = false := by
  intro c hc
  rcases pyIntRepr_chars c hc with rfl | h
  · decide
  · exact isDigit_not_pySpace h

theorem pyNatReprAux_ne_nil : ∀ fuel n acc, pyNatReprAux (fuel + 1) n acc ≠ [] := by
  intro fuel
  induction fuel with
  | zero =>
    intro n acc
    unfold pyNatReprAux
    by_cases hq : n / 10 = 0 <;> simp [hq, pyNatReprAux]
  | succ fuel ih =>
    intro n acc
    rw [pyNatReprAux]
    by_cases hq : n / 10 = 0
    · simp [hq]
    · simpa [hq] using ih (n / 10) (Nat.digitChar (n % 10) :: acc)

theorem pyNatRepr_ne_nil {n : Nat} : pyNatRepr n ≠ [] :=
  pyNatReprAux_ne_nil n n []

theorem pyIntRepr_ne_nil {v : Int} : pyIntRepr v ≠ [] := by
  unfold pyIntRepr
  by_cases hv : v < 0
  · rw [if_pos hv]; simp
  · rw [if_neg hv]; exact pyNatRepr_ne_nil

theorem pyStripL_pyIntRepr {v : Int} : pyStripL (pyIntRepr v) = pyIntRepr v := by
  apply pyStripL_eq_self
  · intro c hc
    exact pyIntRepr_no_space c (by
      cases h : pyIntRepr v with
      | nil => exact absurd h pyIntRepr_ne_nil
      | cons a l => rw [h] at hc; simp at hc; subst hc; simp [h])
  · intro c hc
    exact pyIntRepr_no_space c (List.mem_of_getLast?_eq_some hc)

theorem pyNatRepr_head_digit {n : Nat} : ∀ c, (pyNatRepr n).head? = some c →
    c.isDigit = true := by
  intro c hc
  exact pyNatRepr_all_digits c (by
    cases h : pyNatRepr n with
    | nil => rw [h] at hc; simp at hc
    | cons a l => rw [h] at hc; simp at hc; subst hc; simp [h])

theorem pyInt?_pyIntStr (v : Int) : pyInt? (pyIntStr v) = some v := by
  have hToList : (pyIntStr v).toList = pyIntRepr v := rfl
  by_cases hv : v < 0
  · have hrepr : pyIntRepr v = '-' :: pyNatRepr v.natAbs := by
      unfold pyIntRepr; rw [if_pos hv]
    unfold pyInt?
    rw [hToList, pyStripL_pyIntRepr, hrepr]
    dsimp only
    rw [if_pos rfl, pyDigits?_pyNatRepr]
    simp [abs_of_neg hv]
  · have hrepr : pyIntRepr v = pyNatRepr v.toNat := by
      unfold pyIntRepr; rw [if_neg hv]
    unfold pyInt?
    rw [hToList, pyStripL_pyIntRepr, hrepr]
    cases hrep : pyNatRepr v.toNat with
    | nil => exact absurd hrep pyNatRepr_ne_nil
    | cons c rest =>
      have hcd : c.isDigit = true := pyNatRepr_head_digit c (by rw [hrep]; rfl)
      have hc1 : ¬ c = '-' := by rintro rfl; exact absurd hcd (by decide)
      have hc2 : ¬ c = '+' := by rintro rfl; exact absurd hcd (by decide)
      dsimp only
      rw [if_neg hc1, if_neg hc2, ← hrep, pyDigits?_pyNatRepr]
      have hval : ((v.toNat : Int)) = v := by omega
      simp [hval]

theorem toList_append (s t : String) : (s ++ t).toList = s.toList ++ t.toList := rfl

/-- The version/generator line written by the serializers. -/
def versionLine (v : Int) : String := pyIntStr v ++ " " ++ wedSignature

theorem versionLine_toList (v : Int) :
    (versionLine v).toList = pyIntRepr v ++ ' ' :: wedSignature.toList := by
  rw [versionLine, toList_append, toList_append, hToListSpace, hToListInt, List.append_assoc]
  rfl
where
  hToListSpace : (" " : String).toList = [' '] := rfl
  hToListInt : (pyIntStr v).toList = pyIntRepr v := rfl

theorem pyStripL_versionLine (v : Int) :
    pyStripL (versionLine v).toList = (versionLine v).toList := by
  rw [versionLine_toList]
  apply pyStripL_eq_self
  · intro c hc
    cases h : pyIntRepr v with
    | nil => exact absurd h pyIntRepr_ne_nil
    | cons a l =>
      rw [h, List.cons_append] at hc
      simp only [List.head?_cons, Option.some.injEq] at hc
      subst hc
      exact pyIntRepr_no_space a (by rw [h]; exact List.mem_cons_self a l)
  · intro c hc
    rw [List.getLast?_append] at hc
    have hlast : (' ' :: wedSignature.toList).getLast? = some 'r' := by decide
    rw [hlast] at hc
    simp only [Option.or_some, Option.some.injEq] at hc
    subst hc
    decide

theorem firstSpaceTok_versionLine (v : Int) :
    firstSpaceTok (versionLine v) = pyIntStr v := by
  unfold firstSpaceTok
  rw [pyStripL_versionLine, versionLine_toList]
  rw [takeWhile_append_eq
      (fun c hc => by
        have hne : c ≠ ' ' := by
          intro hsp
          subst hsp
          exact absurd (pyIntRepr_no_space _ hc) (by decide)
        simpa using hne)
      (by simp)]
  rfl

theorem containsSubS_versionLine (v : Int) :
    containsSubS wedSignature (versionLine v) = true := by
  unfold containsSubS
  rw [versionLine_toList]
  have : pyIntRepr v ++ ' ' :: wedSignature.toList
      = (pyIntRepr v ++ [' ']) ++ wedSignature.toList := by simp
  rw [this]
  exact containsSub_append_self _ (by decide)

theorem pyInt?_firstSpaceTok_versionLine (v : Int) :
    pyInt? (firstSpaceTok (versionLine v)) = some v := by
  rw [firstSpaceTok_versionLine, pyInt?_pyIntStr]

/-! ## Claim C1 — unknown record codes and tokenization -/

/-- **C1** (counterexample).  The claim asserts that a line whose first
token is a textual integer outside the enumerated record codes (such as
1500) passes through tokenization and whole-file parsing as an opaque
record.  In the code, `tokenize` executes `RowCode(int(tokens[0]))`,
and the `RowCode` enum raises `ValueError` on 1500; the exception is
not caught in `_parse_text`, so the whole-file parse aborts as well. -/
theorem c1_counterexample :
    tokenize "1500 foo" = none ∧
    parseText ["I", "1100 Generated by WorldEditor",
      "1 100 1 0 XYZ X", "1500 foo", "99"] = none := by
  constructor <;> decide

/-- **C1** (amended).  For every input line whose first
whitespace-delimited field is a textual integer that is not one of the
enumerated record codes, tokenization raises `ValueError` (returns
`none`) instead of passing the line through, so whole-file parsing
aborts at such a line. -/
theorem c1_unknown_code_tokenize_fails
    (line : String) (f : List Char) (fs : List (List Char)) (n : Int)
    (hf : spaceFields line = f :: fs)
    (hn : pyInt? ⟨f⟩ = some n)
    (hmem : n ∉ knownRowCodes) :
    tokenize line = none := by
  unfold tokenize
  rw [hf]
  dsimp only
  rw [hn]
  simp [hmem]

/-- **C1** (witness): the amended theorem applied to the line
`"1500 foo"`. -/
theorem c1_witness :
    spaceFields "1500 foo" = [['1', '5', '0', '0'], ['f', 'o', 'o']] ∧
    pyInt? ⟨['1', '5', '0', '0']⟩ = some 1500 ∧
    (1500 : Int) ∉ knownRowCodes ∧
    tokenize "1500 foo" = none :=
  ⟨by decide, by decide, by decide,
    c1_unknown_code_tokenize_fails "1500 foo" ['1', '5', '0', '0'] [['f', 'o', 'o']]
      1500 (by decide) (by decide) (by decide)⟩

/-! ## Claim C5 — what the tokenizer splits on -/

/-- `splitPred p l`: split `l` at every character satisfying `p`
(generalisation of `splitChar` to a predicate, used only to state what
the spec's words would require). -/
def splitPred (p : Char → Bool) : List Char → List (List Char)
  | [] => [[]]
  | a :: rest =>
    match splitPred p rest with
    | [] => if p a then [[], []] else [[a]]
    | h :: t => if p a then [] :: h :: t else (a :: h) :: t

/-- A tokenizer that follows the spec's words for C5: fields are
obtained by splitting on runs of *whitespace* (any whitespace
character), not just spaces; the head coercion is as in the source. -/
def tokenizeSpecWsRuns (line : String) : Option (List Tok) :=
  match (splitPred isPySpace line.toList).filter (· ≠ []) with
  | [] => some []
  | f :: fs =>
    match pyInt? ⟨f⟩ with
    | none => none
    | some n =>
      if n ∈ knownRowCodes then
        some (Tok.code n :: fs.map (fun cs => Tok.str ⟨cs⟩))
      else
        none

/-- **C5** (counterexample).  The claim says the tokenizer splits on
runs of whitespace.  It splits on runs of *spaces* only: in
`"1 a\tb"` the tab is kept inside a field, whereas whitespace-run
splitting would produce two separate fields. -/
theorem c5_counterexample :
    tokenize "1 a\tb" = some [Tok.code 1, Tok.str "a\tb"] ∧
    tokenizeSpecWsRuns "1 a\tb" = some [Tok.code 1, Tok.str "a", Tok.str "b"] ∧
    tokenize "1 a\tb" ≠ tokenizeSpecWsRuns "1 a\tb" := by
  refine ⟨by decide, by decide, by decide⟩

/-- **C5** (amended).  The tokenizer splits on runs of *space*
characters only (other whitespace such as tabs survives inside fields,
though leading/trailing whitespace is stripped); an all-whitespace or
empty line yields zero tokens rather than an error; the result depends
only on the space-delimited fields of the line, and the first field is
coerced to a record code. -/
theorem c5_tokenizer_splits_on_spaces :
    (∀ s : String, (∀ c ∈ s.toList, isPySpace c = true) → tokenize s = some []) ∧
    (∀ l₁ l₂ : String, spaceFields l₁ = spaceFields l₂ → tokenize l₁ = tokenize l₂) ∧
    tokenize "1  2   a\tb" = some [Tok.code 1, Tok.str "2", Tok.str "a\tb"] := by
  refine ⟨?_, ?_, by decide⟩
  · intro s h
    unfold tokenize spaceFields
    rw [pyStripL_eq_nil_of_all h]
    rfl
  · intro l₁ l₂ h
    unfold tokenize
    rw [h]

/-- **C5** (witness): the zero-tokens part of the amended theorem
applied to an all-whitespace line. -/
theorem c5_witness :
    (∀ c ∈ ("  \t " : String).toList, isPySpace c = true) ∧
    tokenize "  \t " = some [] :=
  ⟨by decide, c5_tokenizer_splits_on_spaces.1 "  \t " (by decide)⟩

/-! ## Claim C10 — the off-by-one in `Airport.head` -/

/-- **C10** (confirmed).  For `num_lines = n ≥ 1`, `Airport.head(n)`
returns the join of only the first `n - 1` raw lines (its `islice` stop
bound is `num_lines - 1`), so `head(1)` always returns the empty
string, despite the docstring describing `num_lines` as the number of
lines to return. -/
theorem c10_head_returns_n_minus_one (a : Airport) (n : Int) (h : 1 ≤ n) :
    a.head? n = some ⟨List.intercalate ['\n']
      ((a.raw_lines.take (n - 1).toNat).map String.toList)⟩ ∧
    a.head? 1 = some "" := by
  constructor
  · unfold Airport.head?
    rw [if_neg (by omega)]
  · unfold Airport.head?
    norm_num
    rfl

/-- **C10** (witness): at a two-line airport, `head(2)` returns only
the first line. -/
theorem c10_witness :
    (1 : Int) ≤ 2 ∧
    ((Airport.mk ["1 0 0 0 X Y", "100 r"] 1100 []).head? 2 = some ⟨List.intercalate ['\n']
      (((Airport.mk ["1 0 0 0 X Y", "100 r"] 1100 []).raw_lines.take
        ((2 : Int) - 1).toNat).map String.toList)⟩ ∧
     (Airport.mk ["1 0 0 0 X Y", "100 r"] 1100 []).head? 1 = some "") :=
  ⟨by decide, c10_head_returns_n_minus_one (Airport.mk ["1 0 0 0 X Y", "100 r"] 1100 []) 2
    (by decide)⟩

/-! ## Claim C8 — header-field accessors on short headers -/

/-- **C8** (counterexample).  The claim says that on a header line with
fewer fields than required, accessing the *name* (like the id,
elevation and ATC flag) fails.  `Airport.name` is
`' '.join(tokenized_lines[0][5:])`, and a Python slice of a short list
is empty, so on the one-token header `"1"` the name silently evaluates
to the empty string instead of failing. -/
theorem c8_counterexample :
    (Airport.mk ["1"] 1100 [[Tok.code 1]]).name? = some "" := by
  decide

/-- **C8** (amended).  On a header line with fewer fields than the
accessor's fixed index requires, `id` (index 4), `has_atc` (index 2)
and `elevation_ft_amsl` (index 1) fail with an out-of-range condition
that surfaces to the caller; `name` (the join of fields 5 and on) does
*not* fail but silently returns the empty string. -/
theorem c8_short_header_accessors (a : Airport) (h0 : List Tok) (rest : List (List Tok))
    (hsh : a.tokenized_lines = h0 :: rest) :
    (h0.length ≤ 4 → a.id? = none) ∧
    (h0.length ≤ 2 → a.hasAtc? = none) ∧
    (h0.length ≤ 1 → a.elevation? = none) ∧
    (h0.length ≤ 5 → a.name? = some "") := by
  refine ⟨?_, ?_, ?_, ?_⟩
  · intro hlen
    unfold Airport.id?
    rw [hsh]
    have h4 : h0[4]? = none := by
      rw [← List.get?_eq_getElem?]
      exact List.get?_eq_none.mpr hlen
    simp [h4]
  · intro hlen
    unfold Airport.hasAtc?
    rw [hsh]
    have h2 : h0[2]? = none := by
      rw [← List.get?_eq_getElem?]
      exact List.get?_eq_none.mpr hlen
    simp [h2]
  · intro hlen
    unfold Airport.elevation?
    rw [hsh]
    have h1 : h0[1]? = none := by
      rw [← List.get?_eq_getElem?]
      exact List.get?_eq_none.mpr hlen
    simp [h1]
  · intro hlen
    unfold Airport.name?
    rw [hsh]
    have hdrop : h0.drop 5 = [] := List.drop_eq_nil_of_le hlen
    simp [joinToks?, hdrop]
    exact ⟨[], rfl, rfl⟩

/-- **C8** (witness): the amended theorem applied to the one-token
header `[1]`. -/
theorem c8_witness :
    (Airport.mk ["1"] 1100 [[Tok.code 1]]).tokenized_lines = [Tok.code 1] :: [] ∧
    (((Airport.mk ["1"] 1100 [[Tok.code 1]]).id? = none) ∧
     ((Airport.mk ["1"] 1100 [[Tok.code 1]]).hasAtc? = none) ∧
     ((Airport.mk ["1"] 1100 [[Tok.code 1]]).elevation? = none) ∧
     ((Airport.mk ["1"] 1100 [[Tok.code 1]]).name? = some "")) := by
  refine ⟨rfl, ?_⟩
  have h := c8_short_header_accessors (Airport.mk ["1"] 1100 [[Tok.code 1]])
    [Tok.code 1] [] rfl
  exact ⟨h.1 (by decide), h.2.1 (by decide), h.2.2.1 (by decide), h.2.2.2 (by decide)⟩

/-! ## Claim C3 — metadata records with and without a value -/

/-- Does this tokenized line write dict key `k` during the metadata
scan? -/
def writesKey (ts : List Tok) (k : MetadataKey) : Bool :=
  match ts with
  | Tok.code 1302 :: Tok.str s :: _ => MetadataKey.fromStr? s = some k
  | _ => false

/-- A shape condition under which the metadata scan cannot raise on
this line: if it is a metadata line, it has a key token and all its
value tokens are strings.  (Lines produced by `tokenize` always satisfy
this.) -/
def metaLineOk (ts : List Tok) : Bool :=
  match ts with
  | Tok.code 1302 :: t0s =>
    match t0s with
    | [] => false
    | _ :: rest => rest.all (fun t => match t with | Tok.str _ => true | _ => false)
  | _ => true

theorem strsOf?_map_str (ss : List String) : strsOf? (ss.map Tok.str) = some ss := by
  induction ss with
  | nil => rfl
  | cons s rest ih => simp [strsOf?, ih]

theorem joinToks?_map_str (ss : List String) :
    joinToks? (ss.map Tok.str) = some (String.intercalate " " ss) := by
  unfold joinToks?
  rw [strsOf?_map_str]
  rfl

theorem metaLookup_cons_self (m : List (MetadataKey × String)) (k : MetadataKey)
    (v : String) : metaLookup ((k, v) :: m) k = some v := by
  unfold metaLookup
  rw [List.find?_cons_of_pos _ (by simp)]
  rfl

theorem metaLookup_cons_other (m : List (MetadataKey × String)) (k k₀ : MetadataKey)
    (v : String) (h : k₀ ≠ k) : metaLookup ((k₀, v) :: m) k = metaLookup m k := by
  unfold metaLookup
  rw [List.find?_cons_of_neg _ (by simpa using h)]

theorem metaLookup_dictInsert_self (m : List (MetadataKey × String))
    (k : MetadataKey) (v : String) :
    metaLookup (dictInsert k v m) k = some v := by
  induction m with
  | nil => exact metaLookup_cons_self [] k v
  | cons p rest ih =>
    cases p with
    | mk k₀ v₀ =>
      by_cases hk : k₀ = k
      · rw [dictInsert, if_pos hk]
        exact metaLookup_cons_self rest k v
      · rw [dictInsert, if_neg hk, metaLookup_cons_other _ k k₀ v₀ hk]
        exact ih

theorem metaLookup_dictInsert_other (m : List (MetadataKey × String))
    (k k' : MetadataKey) (v : String) (h : k' ≠ k) :
    metaLookup (dictInsert k' v m) k = metaLookup m k := by
  induction m with
  | nil => rw [dictInsert, metaLookup_cons_other [] k k' v h]
  | cons p rest ih =>
    cases p with
    | mk k₀ v₀ =>
      by_cases hk : k₀ = k'
      · subst hk
        rw [dictInsert, if_pos rfl, metaLookup_cons_other rest k k₀ v h,
          metaLookup_cons_other rest k k₀ v₀ h]
      · rw [dictInsert, if_neg hk]
        by_cases hkk : k₀ = k
        · subst hkk
          rw [metaLookup_cons_self, metaLookup_cons_self]
        · rw [metaLookup_cons_other _ k k₀ v₀ hkk, metaLookup_cons_other _ k k₀ v₀ hkk]
          exact ih

/-- A token list all of whose elements are strings is the image of its
payload list. -/
theorem all_str_exists_map (l : List Tok) (h : ∀ t ∈ l, ∃ u, t = Tok.str u) :
    ∃ ss : List String, l = ss.map Tok.str := by
  induction l with
  | nil => exact ⟨[], rfl⟩
  | cons x xs ih =>
    obtain ⟨u, rfl⟩ := h x (List.mem_cons_self x xs)
    obtain ⟨ss, hss⟩ := ih (fun t ht => h t (List.mem_cons_of_mem _ ht))
    exact ⟨u :: ss, by simp [hss]⟩

/-- Evaluation of `metadataStep` on a well-shaped metadata line. -/
theorem metadataStep_meta (acc : List (MetadataKey × String)) (t1 : Tok)
    (ss : List String) :
    metadataStep acc (Tok.code 1302 :: t1 :: ss.map Tok.str)
      = some (match t1 with
        | Tok.code _ => acc
        | Tok.str key =>
          match MetadataKey.fromStr? key with
          | none => acc
          | some k =>
            dictInsert k (if ss = [] then "" else String.intercalate " " ss) acc) := by
  cases ss with
  | nil =>
    cases t1 with
    | code n => rfl
    | str key => cases hkey : MetadataKey.fromStr? key <;> simp [metadataStep, hkey]
  | cons s rest =>
    have hj : joinToks? (Tok.str s :: rest.map Tok.str)
        = some (String.intercalate " " (s :: rest)) := by
      simpa using joinToks?_map_str (s :: rest)
    cases t1 with
    | code n => simp [metadataStep, hj]
    | str key =>
      cases hkey : MetadataKey.fromStr? key <;> simp [metadataStep, hkey, hj]

/-- Evaluation of `metadataStep` on a line that is not a metadata
record. -/
theorem metadataStep_other (acc : List (MetadataKey × String)) (t0 : Tok)
    (t0s : List Tok) (h : t0 ≠ Tok.code 1302) :
    metadataStep acc (t0 :: t0s) = some acc := by
  unfold metadataStep
  dsimp only
  rw [if_neg h]
  rfl

/-- On lines that are nonempty and well-shaped, the metadata fold
succeeds, and its result agrees with the accumulator on every key that
no line of the list writes. -/
theorem metadataFold_spec (L : List (List Tok)) (acc : List (MetadataKey × String))
    (h1 : ∀ ts ∈ L, ts ≠ [])
    (h2 : ∀ ts ∈ L, metaLineOk ts = true) :
    ∃ m, L.foldlM metadataStep acc = some m ∧
      ∀ k, (∀ ts ∈ L, writesKey ts k = false) → metaLookup m k = metaLookup acc k := by
  induction L generalizing acc with
  | nil => exact ⟨acc, rfl, fun _ _ => rfl⟩
  | cons ts rest ih =>
    have hts_ne : ts ≠ [] := h1 ts (List.mem_cons_self ts rest)
    have hts_ok : metaLineOk ts = true := h2 ts (List.mem_cons_self ts rest)
    have h1' : ∀ t ∈ rest, t ≠ [] := fun t ht => h1 t (List.mem_cons_of_mem ts ht)
    have h2' : ∀ t ∈ rest, metaLineOk t = true :=
      fun t ht => h2 t (List.mem_cons_of_mem ts ht)
    obtain ⟨t0, t0s, rfl⟩ : ∃ t0 t0s, ts = t0 :: t0s := by
      cases ts with
      | nil => exact absurd rfl hts_ne
      | cons x xs => exact ⟨x, xs, rfl⟩
    by_cases hmeta : t0 = Tok.code 1302
    · subst hmeta
      obtain ⟨t1, vrest, rfl⟩ : ∃ t1 vrest, t0s = t1 :: vrest := by
        cases t0s with
        | nil => exact absurd hts_ok (by decide)
        | cons x xs => exact ⟨x, xs, rfl⟩
      have hvrest : ∀ t ∈ vrest, ∃ u, t = Tok.str u := by
        intro t ht
        have hall : vrest.all
            (fun t => match t with | Tok.str _ => true | _ => false) = true := hts_ok
        rw [List.all_eq_true] at hall
        have := hall t ht
        cases t with
        | str u => exact ⟨u, rfl⟩
        | code _ => simp at this
      obtain ⟨ss, rfl⟩ := all_str_exists_map vrest hvrest
      have hstep := metadataStep_meta acc t1 ss
      cases t1 with
      | code n =>
        obtain ⟨m, hm, hpres⟩ := ih acc h1' h2'
        refine ⟨m, ?_, ?_⟩
        · simpa [List.foldlM_cons, hstep] using hm
        · intro k hk
          exact hpres k (fun t ht => hk t (List.mem_cons_of_mem _ ht))
      | str key =>
        cases hkey : MetadataKey.fromStr? key with
        | none =>
          simp only [hkey] at hstep
          obtain ⟨m, hm, hpres⟩ := ih acc h1' h2'
          refine ⟨m, ?_, ?_⟩
          · simpa [List.foldlM_cons, hstep] using hm
          · intro k hk
            exact hpres k (fun t ht => hk t (List.mem_cons_of_mem _ ht))
        | some k' =>
          simp only [hkey] at hstep
          obtain ⟨m, hm, hpres⟩ :=
            ih (dictInsert k' (if ss = [] then "" else String.intercalate " " ss) acc)
              h1' h2'
          refine ⟨m, ?_, ?_⟩
          · simpa [List.foldlM_cons, hstep] using hm
          · intro k hk
            have hk' : k' ≠ k := by
              intro he
              subst he
              have hw := hk _ (List.mem_cons_self _ rest)
              have hred : writesKey (Tok.code 1302 :: Tok.str key :: ss.map Tok.str) k'
                  = decide (MetadataKey.fromStr? key = some k') := rfl
              rw [hred, hkey] at hw
              simp at hw
            rw [hpres k (fun t ht => hk t (List.mem_cons_of_mem _ ht)),
              metaLookup_dictInsert_other acc k k' _ hk']
    · have hstep := metadataStep_other acc t0 t0s hmeta
      obtain ⟨m, hm, hpres⟩ := ih acc h1' h2'
      refine ⟨m, ?_, ?_⟩
      · simpa [List.foldlM_cons, hstep] using hm
      · intro k hk
        exact hpres k (fun t ht => hk t (List.mem_cons_of_mem _ ht))

theorem intercalate_cons₂ (sep : List Char) (x y : List Char) (zs : List (List Char)) :
    List.intercalate sep (x :: y :: zs) = x ++ sep ++ List.intercalate sep (y :: zs) := by
  simp [List.intercalate]

theorem mem_infix_intercalateNL (ls : List String) (l : String) (h : l ∈ ls) :
    l.toList <:+: List.intercalate ['\n'] (ls.map String.toList) := by
  induction ls with
  | nil => exact absurd h (List.not_mem_nil l)
  | cons x xs ih =>
    rcases List.mem_cons.mp h with rfl | hmem
    · cases xs with
      | nil =>
        have hsing : List.intercalate ['\n'] [l.toList] = l.toList := by
          simp [List.intercalate]
        rw [List.map_cons, List.map_nil, hsing]
      | cons y ys =>
        rw [List.map_cons, List.map_cons, intercalate_cons₂]
        exact ((List.prefix_append _ _).trans (List.prefix_append _ _)).isInfix
    · cases xs with
      | nil => exact absurd hmem (List.not_mem_nil l)
      | cons y ys =>
        have hinf := ih hmem
        rw [List.map_cons, List.map_cons, intercalate_cons₂]
        obtain ⟨u, v, huv⟩ := hinf
        refine ⟨(x.toList ++ ['\n']) ++ u, v, ?_⟩
        rw [List.map_cons] at huv
        have huv' : u ++ (l.toList ++ v)
            = List.intercalate ['\n'] (y.toList :: ys.map String.toList) := by
          rw [← List.append_assoc]
          exact huv
        simp only [List.append_assoc]
        rw [huv']

/-- Every raw line occurs as a contiguous substring of `str(apt)`:
serialization joins the raw lines verbatim and excludes nothing. -/
theorem mem_infix_strChars (a : Airport) (l : String) (h : l ∈ a.raw_lines) :
    l.toList <:+: a.strChars :=
  mem_infix_intercalateNL a.raw_lines l h

/-- The concrete airport of Scenario B's second half: a header plus an
empty-valued metadata record `1302 city`. -/
def c3Airport : Airport :=
  Airport.mk ["1 100 1 0 XYZ N", "1302 city"] 1100
    [[Tok.code 1, Tok.str "100", Tok.str "1", Tok.str "0", Tok.str "XYZ", Tok.str "N"],
     [Tok.code 1302, Tok.str "city"]]

/-- **C3** (counterexample).  The claim says an airport with a metadata
record `1302 city` and no value tokens has *no* `CITY` entry and that
the line is *excluded* from serialized output.  In the code,
`Airport.metadata` assigns `out[CITY] = ''` (the value is the empty
string, not absent), and `Airport.__str__` joins `raw_lines` verbatim,
so the line is present in the serialized text. -/
theorem c3_counterexample :
    Airport.fromLines? ["1 100 1 0 XYZ N", "1302 city"] 1100 = some c3Airport ∧
    c3Airport.metadata? = some [(MetadataKey.CITY, "")] ∧
    metaLookup [(MetadataKey.CITY, "")] MetadataKey.CITY = some "" ∧
    c3Airport.strChars = ("1 100 1 0 XYZ N" ++ "\n" ++ "1302 city").toList := by
  refine ⟨by decide, by decide, by decide, by decide⟩

/-- **C3** (amended).  For an airport whose tokenized lines contain one
metadata record with key `city` and value tokens `vs` (no later line
writing the `CITY` key, all lines nonempty and well-shaped): the
metadata map maps `CITY` to the join of `vs` — which is `"Seattle"` for
`1302 city Seattle`, and the *empty string* (not an absent entry) for
`1302 city` — and every raw line, the empty-valued metadata line
included, appears in the airport's serialized output. -/
theorem c3_metadata_city_semantics (a : Airport) (pre post : List (List Tok))
    (vs : List String)
    (hsplit : a.tokenized_lines
      = pre ++ (Tok.code 1302 :: Tok.str "city" :: vs.map Tok.str) :: post)
    (hne : ∀ ts ∈ a.tokenized_lines, ts ≠ [])
    (hok : ∀ ts ∈ a.tokenized_lines, metaLineOk ts = true)
    (hpost : ∀ ts ∈ post, writesKey ts MetadataKey.CITY = false) :
    (∃ m, a.metadata? = some m ∧
      metaLookup m MetadataKey.CITY
        = some (if vs = [] then "" else String.intercalate " " vs)) ∧
    ∀ l ∈ a.raw_lines, l.toList <:+: a.strChars := by
  constructor
  · have hne_pre : ∀ ts ∈ pre, ts ≠ [] := by
      intro ts hts
      exact hne ts (by rw [hsplit]; exact List.mem_append_left _ hts)
    have hok_pre : ∀ ts ∈ pre, metaLineOk ts = true := by
      intro ts hts
      exact hok ts (by rw [hsplit]; exact List.mem_append_left _ hts)
    have hne_post : ∀ ts ∈ post, ts ≠ [] := by
      intro ts hts
      exact hne ts (by
        rw [hsplit]
        exact List.mem_append_right _ (List.mem_cons_of_mem _ hts))
    have hok_post : ∀ ts ∈ post, metaLineOk ts = true := by
      intro ts hts
      exact hok ts (by
        rw [hsplit]
        exact List.mem_append_right _ (List.mem_cons_of_mem _ hts))
    obtain ⟨m₁, hm₁, _⟩ := metadataFold_spec pre [] hne_pre hok_pre
    have hstep := metadataStep_meta m₁ (Tok.str "city") vs
    have hcity : MetadataKey.fromStr? "city" = some MetadataKey.CITY := rfl
    dsimp only at hstep
    rw [hcity] at hstep
    dsimp only at hstep
    obtain ⟨m, hm, hpres⟩ := metadataFold_spec post
      (dictInsert MetadataKey.CITY (if vs = [] then "" else String.intercalate " " vs) m₁)
      hne_post hok_post
    refine ⟨m, ?_, ?_⟩
    · unfold Airport.metadata?
      rw [hsplit, List.foldlM_append, hm₁]
      show (List.foldlM metadataStep m₁ (_ :: post)) = some m
      rw [List.foldlM_cons, hstep]
      simpa using hm
    · rw [hpres MetadataKey.CITY hpost, metaLookup_dictInsert_self]
  · intro l hl
    exact mem_infix_strChars a l hl

/-- **C3** (witness): the amended theorem applied to `c3Airport`, whose
only metadata line is the empty-valued `1302 city`. -/
theorem c3_witness :
    (c3Airport.tokenized_lines
      = [[Tok.code 1, Tok.str "100", Tok.str "1", Tok.str "0", Tok.str "XYZ", Tok.str "N"]]
        ++ (Tok.code 1302 :: Tok.str "city" :: ([] : List String).map Tok.str) :: [] ∧
     (∀ ts ∈ c3Airport.tokenized_lines, ts ≠ []) ∧
     (∀ ts ∈ c3Airport.tokenized_lines, metaLineOk ts = true) ∧
     (∀ ts ∈ ([] : List (List Tok)), writesKey ts MetadataKey.CITY = false)) ∧
    ((∃ m, c3Airport.metadata? = some m ∧
      metaLookup m MetadataKey.CITY
        = some (if ([] : List String) = [] then "" else String.intercalate " " [])) ∧
     ∀ l ∈ c3Airport.raw_lines, l.toList <:+: c3Airport.strChars) :=
  ⟨⟨by decide, by decide, by decide, by decide⟩,
    c3_metadata_city_semantics c3Airport
      [[Tok.code 1, Tok.str "100", Tok.str "1", Tok.str "0", Tok.str "XYZ", Tok.str "N"]]
      [] [] (by decide) (by decide) (by decide) (by decide)⟩

/-! ## Claim C6 — latitude/longitude from the first runway-type record -/

/-- The line exists (so indexing its head cannot raise) and its leading
token is not a runway code. -/
def headNotRunway (l : List Tok) : Bool :=
  match l with
  | [] => false
  | t0 :: _ => !t0.isRunway

/-- The first-runway scan skips exactly the leading non-runway lines. -/
theorem firstRunwayTokens?_eq (pre : List (List Tok)) (ts : List Tok)
    (post : List (List Tok)) (t0 : Tok) (t0s : List Tok)
    (hpre : ∀ l ∈ pre, headNotRunway l = true)
    (hts : ts = t0 :: t0s) (ht0 : t0.isRunway = true) :
    firstRunwayTokens? (pre ++ ts :: post) = some ts := by
  induction pre with
  | nil =>
    subst hts
    rw [List.nil_append]
    unfold firstRunwayTokens?
    dsimp only
    rw [ht0]
    simp
  | cons l rest ih =>
    have hl := hpre l (List.mem_cons_self l rest)
    obtain ⟨u0, u0s, rfl⟩ : ∃ u0 u0s, l = u0 :: u0s := by
      cases l with
      | nil => exact absurd hl (by decide)
      | cons x xs => exact ⟨x, xs, rfl⟩
    have hu0 : u0.isRunway = false := by
      have h2 : (!u0.isRunway) = true := hl
      simpa using h2
    rw [List.cons_append]
    unfold firstRunwayTokens?
    dsimp only
    rw [hu0]
    simp only [Bool.false_eq_true, if_false]
    exact ih (fun x hx => hpre x (List.mem_cons_of_mem _ hx))

/-- **C6** (confirmed).  Latitude and longitude are derived from the
first runway-type record in file order, dispatched by subtype: a land
runway (100) averages token indices 9/18 (latitude) and 10/19
(longitude); a water runway (101) averages 4/7 and 5/8; a helipad
(102) reads the single indices 2 and 3 exactly, with no averaging —
so a helipad-only airport returns that helipad's exact coordinates. -/
theorem c6_position_from_first_runway (a : Airport) (pre post : List (List Tok))
    (ts : List Tok) (c : Int)
    (hsplit : a.tokenized_lines = pre ++ ts :: post)
    (hpre : ∀ l ∈ pre, headNotRunway l = true)
    (hhead : ts.head? = some (Tok.code c))
    (hc : c ∈ runwayCodes) :
    (c = 100 → ∀ x y, (ts.get? 9).bind tokFloat? = some x →
      (ts.get? 18).bind tokFloat? = some y → a.latitude? = some ((x + y) / 2)) ∧
    (c = 100 → ∀ x y, (ts.get? 10).bind tokFloat? = some x →
      (ts.get? 19).bind tokFloat? = some y → a.longitude? = some ((x + y) / 2)) ∧
    (c = 101 → ∀ x y, (ts.get? 4).bind tokFloat? = some x →
      (ts.get? 7).bind tokFloat? = some y → a.latitude? = some ((x + y) / 2)) ∧
    (c = 101 → ∀ x y, (ts.get? 5).bind tokFloat? = some x →
      (ts.get? 8).bind tokFloat? = some y → a.longitude? = some ((x + y) / 2)) ∧
    (c = 102 → a.latitude? = (ts.get? 2).bind tokFloat? ∧
      a.longitude? = (ts.get? 3).bind tokFloat?) := by
  obtain ⟨t0s, rfl⟩ : ∃ t0s, ts = Tok.code c :: t0s := by
    cases ts with
    | nil => simp at hhead
    | cons x xs =>
      simp only [List.head?_cons, Option.some.injEq] at hhead
      exact ⟨xs, by rw [hhead]⟩
  have hrw : (Tok.code c).isRunway = true := by
    simp only [Tok.isRunway]
    exact decide_eq_true hc
  have hfirst : firstRunwayTokens? a.tokenized_lines = some (Tok.code c :: t0s) := by
    rw [hsplit]
    exact firstRunwayTokens?_eq pre _ post (Tok.code c) t0s hpre rfl hrw
  refine ⟨?_, ?_, ?_, ?_, ?_⟩
  · rintro rfl x y hx hy
    unfold Airport.latitude?
    rw [hfirst]
    show rwyCenter? (Tok.code 100 :: t0s) 9 18 = some ((x + y) / 2)
    unfold rwyCenter?
    rw [hx, hy]
    show some ((1 : ℚ) / 2 * (x + y)) = some ((x + y) / 2)
    congr 1
    ring
  · rintro rfl x y hx hy
    unfold Airport.longitude?
    rw [hfirst]
    show rwyCenter? (Tok.code 100 :: t0s) 10 19 = some ((x + y) / 2)
    unfold rwyCenter?
    rw [hx, hy]
    show some ((1 : ℚ) / 2 * (x + y)) = some ((x + y) / 2)
    congr 1
    ring
  · rintro rfl x y hx hy
    unfold Airport.latitude?
    rw [hfirst]
    show rwyCenter? (Tok.code 101 :: t0s) 4 7 = some ((x + y) / 2)
    unfold rwyCenter?
    rw [hx, hy]
    show some ((1 : ℚ) / 2 * (x + y)) = some ((x + y) / 2)
    congr 1
    ring
  · rintro rfl x y hx hy
    unfold Airport.longitude?
    rw [hfirst]
    show rwyCenter? (Tok.code 101 :: t0s) 5 8 = some ((x + y) / 2)
    unfold rwyCenter?
    rw [hx, hy]
    show some ((1 : ℚ) / 2 * (x + y)) = some ((x + y) / 2)
    congr 1
    ring
  · rintro rfl
    constructor
    · unfold Airport.latitude?
      rw [hfirst]
      rfl
    · unfold Airport.longitude?
      rw [hfirst]
      rfl

/-- A heliport whose only position-bearing record is a helipad. -/
def c6Airport : Airport :=
  Airport.mk ["17 650 0 0 H Heliport", "102 H1 47.5 -122.25 0 0 1 0 0 0 0 0"] 1100
    [[Tok.code 17, Tok.str "650", Tok.str "0", Tok.str "0", Tok.str "H", Tok.str "Heliport"],
     [Tok.code 102, Tok.str "H1", Tok.str "47.5", Tok.str "-122.25", Tok.str "0",
      Tok.str "0", Tok.str "1", Tok.str "0", Tok.str "0", Tok.str "0", Tok.str "0",
      Tok.str "0"]]

/-- **C6** (witness): a helipad-only airport returns exactly the parsed
value of the helipad line's tokens 2 and 3 as its coordinates. -/
theorem c6_witness :
    (c6Airport.tokenized_lines
      = [[Tok.code 17, Tok.str "650", Tok.str "0", Tok.str "0", Tok.str "H",
          Tok.str "Heliport"]]
        ++ [Tok.code 102, Tok.str "H1", Tok.str "47.5", Tok.str "-122.25", Tok.str "0",
            Tok.str "0", Tok.str "1", Tok.str "0", Tok.str "0", Tok.str "0", Tok.str "0",
            Tok.str "0"] :: [] ∧
     (∀ l ∈ [[Tok.code 17, Tok.str "650", Tok.str "0", Tok.str "0", Tok.str "H",
          Tok.str "Heliport"]], headNotRunway l = true) ∧
     (102 : Int) ∈ runwayCodes) ∧
    (c6Airport.latitude?
      = ([Tok.code 102, Tok.str "H1", Tok.str "47.5", Tok.str "-122.25", Tok.str "0",
          Tok.str "0", Tok.str "1", Tok.str "0", Tok.str "0", Tok.str "0", Tok.str "0",
          Tok.str "0"].get? 2).bind tokFloat? ∧
     c6Airport.longitude?
      = ([Tok.code 102, Tok.str "H1", Tok.str "47.5", Tok.str "-122.25", Tok.str "0",
          Tok.str "0", Tok.str "1", Tok.str "0", Tok.str "0", Tok.str "0", Tok.str "0",
          Tok.str "0"].get? 3).bind tokFloat?) :=
  ⟨⟨by decide, by decide, by decide⟩,
    (c6_position_from_first_runway c6Airport
      [[Tok.code 17, Tok.str "650", Tok.str "0", Tok.str "0", Tok.str "H",
        Tok.str "Heliport"]]
      [] [Tok.code 102, Tok.str "H1", Tok.str "47.5", Tok.str "-122.25", Tok.str "0",
          Tok.str "0", Tok.str "1", Tok.str "0", Tok.str "0", Tok.str "0", Tok.str "0",
          Tok.str "0"] 102
      (by decide) (by decide) (by decide) (by decide)).2.2.2.2 rfl⟩

/-! ## Claim C7 — the taxi-route scenario -/

/-- The airport built from the claim's literal Scenario D lines (node
record with four fields). -/
def c7BadAirport : Airport :=
  Airport.mk ["1 100 1 0 XYZ N", "1201 47.1 -122.2 5", "1202 5 6 oneway taxiway_C MyTaxiway"]
    1100
    [[Tok.code 1, Tok.str "100", Tok.str "1", Tok.str "0", Tok.str "XYZ", Tok.str "N"],
     [Tok.code 1201, Tok.str "47.1", Tok.str "-122.2", Tok.str "5"],
     [Tok.code 1202, Tok.str "5", Tok.str "6", Tok.str "oneway", Tok.str "taxiway_C",
      Tok.str "MyTaxiway"]]

/-- The same airport with the node record in the five-field form the
code actually reads (`1201 <lat> <lon> <usage> <id>`). -/
def c7Airport : Airport :=
  Airport.mk ["1 100 1 0 XYZ N", "1201 47.1 -122.2 both 5",
    "1202 5 6 oneway taxiway_C MyTaxiway"] 1100
    [[Tok.code 1, Tok.str "100", Tok.str "1", Tok.str "0", Tok.str "XYZ", Tok.str "N"],
     [Tok.code 1201, Tok.str "47.1", Tok.str "-122.2", Tok.str "both", Tok.str "5"],
     [Tok.code 1202, Tok.str "5", Tok.str "6", Tok.str "oneway", Tok.str "taxiway_C",
      Tok.str "MyTaxiway"]]

/-- **C7** (counterexample).  On the claim's literal node record
`1201 47.1 -122.2 5` (four fields), graph construction reads
`int(tokens[4])` — index 4 of a four-token line — and raises
`IndexError`; it does not yield a graph containing node 5. -/
theorem c7_counterexample :
    Airport.fromLines? ["1 100 1 0 XYZ N", "1201 47.1 -122.2 5",
      "1202 5 6 oneway taxiway_C MyTaxiway"] 1100 = some c7BadAirport ∧
    c7BadAirport.atcNetwork? = none := by
  refine ⟨by decide, by decide⟩

/-- **C7** (amended).  With the node record in its five-field form
`1201 47.1 -122.2 both 5` (id at index 4, latitude at index 1,
longitude at index 2), graph construction succeeds: the graph holds the
single node id 5 whose latitude is the parsed value of `"47.1"` and
whose longitude is the parsed value of `"-122.2"`, and exactly one
one-way, non-runway edge from node 5 to node 6 named `MyTaxiway` with
ICAO width class C. -/
theorem c7_taxi_route_scenario :
    Airport.fromLines? ["1 100 1 0 XYZ N", "1201 47.1 -122.2 both 5",
      "1202 5 6 oneway taxiway_C MyTaxiway"] 1100 = some c7Airport ∧
    ∃ net : TaxiRouteNetwork,
      c7Airport.atcNetwork? = some net ∧
      net.edges
        = [{ node_begin := 5, node_end := 6, name := "MyTaxiway", is_runway := false,
             one_way := true, icao_width := some IcaoWidth.C }] ∧
      ∃ nd : TaxiRouteNode, net.nodes = [(5, nd)] ∧ nd.id = 5 ∧
        pyFloat? "47.1" = some nd.lat ∧ pyFloat? "-122.2" = some nd.lon := by
  refine ⟨by decide, ⟨_, rfl, by decide, ⟨_, rfl, rfl, rfl, rfl⟩⟩⟩


/-! ## Claim C9 — identifier lookup -/

theorem idUpper_of_id? (a : Airport) (s : String) (h : a.id? = some s) :
    a.idUpper = Except.ok (pyUpper s) := by
  unfold Airport.id? at h
  unfold Airport.idUpper
  cases h0 : a.tokenized_lines.get? 0 with
  | none => rw [h0] at h; exact Option.noConfusion h
  | some header =>
    rw [h0] at h
    simp only [Option.bind_eq_bind, Option.some_bind] at h
    dsimp only
    cases h4 : header.get? 4 with
    | none => rw [h4] at h; exact Option.noConfusion h
    | some t =>
      rw [h4] at h
      simp only [Option.some_bind] at h
      cases t with
      | code n => exact Option.noConfusion h
      | str u =>
        have hu : u = s := Option.some.inj h
        subst hu
        rfl

/-- The match predicate of `search_by_id`:
`apt.id.upper() == id.upper()`. -/
def idMatches (q : String) (a : Airport) : Bool :=
  (a.id?).map pyUpper = some (pyUpper q)

theorem searchById_fold (as : List Airport) (acc : List Airport) (q : String)
    (hids : ∀ a ∈ as, ∃ s, a.id? = some s) :
    as.foldlM
      (fun acc a => do
        let s ← a.idUpper
        pure (if s = pyUpper q then acc ++ [a] else acc))
      acc = Except.ok (acc ++ as.filter (idMatches q)) := by
  induction as generalizing acc with
  | nil =>
    show (pure acc : Except PyErr (List Airport)) = Except.ok (acc ++ [])
    rw [List.append_nil]
    rfl
  | cons a rest ih =>
    obtain ⟨s, hs⟩ := hids a (List.mem_cons_self a rest)
    have hup := idUpper_of_id? a s hs
    rw [List.foldlM_cons, hup]
    by_cases hm : pyUpper s = pyUpper q
    · have hpredb : idMatches q a = true := by
        unfold idMatches
        rw [hs]
        simpa using hm
      show Except.ok (if pyUpper s = pyUpper q then acc ++ [a] else acc) >>= _ = _
      rw [if_pos hm]
      show List.foldlM _ (acc ++ [a]) rest = _
      rw [ih (acc ++ [a]) (fun x hx => hids x (List.mem_cons_of_mem a hx)),
        List.filter_cons]
      simp [hpredb, List.append_assoc]
    · have hpredb : idMatches q a = false := by
        unfold idMatches
        rw [hs]
        simpa using hm
      show Except.ok (if pyUpper s = pyUpper q then acc ++ [a] else acc) >>= _ = _
      rw [if_neg hm]
      show List.foldlM _ acc rest = _
      rw [ih acc (fun x hx => hids x (List.mem_cons_of_mem a hx)),
        List.filter_cons]
      simp [hpredb]

/-- **C9** (confirmed).  On a container whose airports all have a
defined identifier, `search_by_id` matches case-insensitively and
exactly: one match is returned, no match reports not-found (`None`),
and more than one match trips the `assert` (an internal consistency
error) instead of returning either airport. -/
theorem c9_search_by_id (d : AptDat) (q : String)
    (hids : ∀ a ∈ d.airports, ∃ s, a.id? = some s) :
    d.searchById q
      = match d.airports.filter (idMatches q) with
        | [] => Except.ok none
        | [a] => Except.ok (some a)
        | _ :: _ :: _ => Except.error PyErr.assertionError := by
  unfold AptDat.searchById
  rw [searchById_fold d.airports [] q hids]
  rw [List.nil_append]
  cases d.airports.filter (idMatches q) with
  | nil => rfl
  | cons a rest =>
    cases rest with
    | nil => rfl
    | cons b rest2 => rfl

/-- Two airports with distinct ids, used to witness C9. -/
def c9A1 : Airport :=
  Airport.mk ["1 10 0 0 ksea Seattle"] 1100
    [[Tok.code 1, Tok.str "10", Tok.str "0", Tok.str "0", Tok.str "ksea", Tok.str "Seattle"]]

def c9A2 : Airport :=
  Airport.mk ["1 20 0 0 KLAX Los Angeles"] 1100
    [[Tok.code 1, Tok.str "20", Tok.str "0", Tok.str "0", Tok.str "KLAX", Tok.str "Los",
      Tok.str "Angeles"]]

/-- **C9** (witness): a case-insensitive single match is returned; a
missing id reports not-found. -/
theorem c9_witness :
    (∀ a ∈ (AptDat.mk [c9A1, c9A2] 1100).airports, ∃ s, a.id? = some s) ∧
    (AptDat.mk [c9A1, c9A2] 1100).searchById "KSEA" = Except.ok (some c9A1) ∧
    (AptDat.mk [c9A1, c9A2] 1100).searchById "XXXX" = Except.ok none :=
  ⟨fun a ha => by
      rcases List.mem_cons.mp ha with rfl | ha2
      · exact ⟨"ksea", by decide⟩
      · rcases List.mem_cons.mp ha2 with rfl | ha3
        · exact ⟨"KLAX", by decide⟩
        · exact absurd ha3 (List.not_mem_nil a),
   (c9_search_by_id (AptDat.mk [c9A1, c9A2] 1100) "KSEA"
      (fun a ha => by
        rcases List.mem_cons.mp ha with rfl | ha2
        · exact ⟨"ksea", by decide⟩
        · rcases List.mem_cons.mp ha2 with rfl | ha3
          · exact ⟨"KLAX", by decide⟩
          · exact absurd ha3 (List.not_mem_nil a))).trans (by rfl),
   (c9_search_by_id (AptDat.mk [c9A1, c9A2] 1100) "XXXX"
      (fun a ha => by
        rcases List.mem_cons.mp ha with rfl | ha2
        · exact ⟨"ksea", by decide⟩
        · rcases List.mem_cons.mp ha2 with rfl | ha3
          · exact ⟨"KLAX", by decide⟩
          · exact absurd ha3 (List.not_mem_nil a))).trans (by rfl)⟩

/-! ## Claim C4 — files with no airport-header lines -/

theorem parseStep_blank (v : Int) (st : ParseState) (l : String)
    (hl : tokenize l = some []) : parseStep v st l = some st := by
  unfold parseStep
  rw [hl]
  rfl

theorem parseLoop_blank (lines : List String) (v : Int) (st : ParseState)
    (hb : ∀ l ∈ lines, tokenize l = some []) : parseLoop v st lines = some st := by
  induction lines with
  | nil => rfl
  | cons l rest ih =>
    unfold parseLoop
    rw [parseStep_blank v st l (hb l (List.mem_cons_self l rest))]
    exact ih (fun x hx => hb x (List.mem_cons_of_mem l hx))

/-- **C4** (counterexample).  A file whose only content is the two-line
header and the terminator line does *not* parse to an empty container:
the final flush pops the lone `99` record but still appends the (now
empty) buffer as an `Airport`, so the container holds one airport. -/
theorem c4_counterexample :
    (parseText ["I", "1100 Generated by WorldEditor", "99"]).map
      (fun d => d.airports.length) = some 1 := by
  decide

/-- **C4** (amended).  A file with zero airport-header lines and no
other tokenizable body lines parses to an empty container; but a file
whose only content is the two-line header plus the terminator parses to
a container holding exactly one degenerate `Airport` with no lines at
all (the pop of the trailing `99` empties the buffer, yet the append
still runs). -/
theorem c4_headerless_files (body : List String)
    (hb : ∀ l ∈ body, tokenize l = some []) :
    parseText ("I" :: "1100 Generated by WorldEditor" :: body) = some ⟨[], 1100⟩ ∧
    parseText ["I", "1100 Generated by WorldEditor", "99"]
      = some ⟨[Airport.mk [] 1100 []], 1100⟩ := by
  constructor
  · show parseTextV 1100 _ = _
    unfold parseTextV
    dsimp only
    rw [if_pos (show pyStrip "I" = "A" ∨ pyStrip "I" = "I" from Or.inr (by decide)),
      if_pos (show containsSubS wedSignature "1100 Generated by WorldEditor" = true
        by decide),
      show pyInt? (firstSpaceTok "1100 Generated by WorldEditor") = some 1100 by decide]
    simp only [Option.bind_eq_bind, Option.some_bind]
    rw [if_pos (show (1100 : Int) < 9999 by norm_num)]
    unfold parseBody
    rw [parseLoop_blank body 1100 ⟨[], [], []⟩ hb]
    rfl
  · decide

/-- **C4** (witness): the amended theorem applied to a body of blank
lines. -/
theorem c4_witness :
    (∀ l ∈ ["", "   "], tokenize l = some []) ∧
    parseText ("I" :: "1100 Generated by WorldEditor" :: ["", "   "]) = some ⟨[], 1100⟩ :=
  ⟨by decide, (c4_headerless_files ["", "   "] (by decide)).1⟩

/-! ## Claim C2 — parse/serialize round trip

The invariants of `_parse_text`'s loop state, and replay lemmas showing
how the loop consumes the lines `write_to_disk` emits. -/

/-- The raw and tokenized buffers of an airport (or of the loop state)
correspond line by line: each stored tokenization is the (nonempty)
tokenization of its raw line. -/
inductive Chain : List String → List (List Tok) → Prop
  | nil : Chain [] []
  | cons {r : String} {t : List Tok} {rs : List String} {ts : List (List Tok)} :
      tokenize r = some t → t ≠ [] → Chain rs ts → Chain (r :: rs) (t :: ts)

/-- The tokenized line does not open an airport (empty lines count as
non-headers; they never occur in stored buffers). -/
def NotHeaderL (t : List Tok) : Prop :=
  ∀ h hs, t = h :: hs → h.isAirportHeader = false

/-- The first stored line exists and opens an airport. -/
def HeadedT (toks : List (List Tok)) : Prop :=
  ∃ h hs rest, toks = (h :: hs) :: rest ∧ h.isAirportHeader = true

/-- The invariant of every `Airport` the parser builds. -/
def AirportInv (v : Int) (a : Airport) : Prop :=
  a.xplane_version = v ∧ Chain a.raw_lines a.tokenized_lines ∧
    ∀ t ∈ a.tokenized_lines.tail, NotHeaderL t

/-- The invariant of the parser loop state. -/
def StInv (v : Int) (st : ParseState) : Prop :=
  (∀ a ∈ st.airports, AirportInv v a) ∧
  (∀ a ∈ st.airports.tail, HeadedT a.tokenized_lines) ∧
  Chain st.raw st.toks ∧
  (∀ t ∈ st.toks.tail, NotHeaderL t) ∧
  (st.airports ≠ [] → HeadedT st.toks)

theorem Chain.append_singleton {rs : List String} {ts : List (List Tok)}
    {r : String} {t : List Tok} (hc : Chain rs ts) (hr : tokenize r = some t)
    (ht : t ≠ []) : Chain (rs ++ [r]) (ts ++ [t]) := by
  induction hc with
  | nil => exact Chain.cons hr ht Chain.nil
  | cons hr' ht' _ ih => exact Chain.cons hr' ht' ih

theorem Chain.dropLast {rs : List String} {ts : List (List Tok)} (hc : Chain rs ts) :
    Chain rs.dropLast ts.dropLast := by
  induction hc with
  | nil => exact Chain.nil
  | cons hr ht htail ih =>
    rename_i r t rs' ts'
    cases htail with
    | nil => exact Chain.nil
    | cons hr2 ht2 hc2 =>
      rename_i r2 t2 rs2 ts2
      rw [List.dropLast_cons₂, List.dropLast_cons₂]
      exact Chain.cons hr ht ih

theorem Chain.ne_nil_left {rs : List String} {ts : List (List Tok)} (hc : Chain rs ts)
    (h : ts ≠ []) : rs ≠ [] := by
  cases hc with
  | nil => exact absurd rfl h
  | cons _ _ _ => simp

/-- A header-line step on an empty buffer reseeds the buffer and flushes
nothing. -/
theorem parseStep_header_empty (v : Int) (A : List Airport) (r : String)
    (h : Tok) (hs : List Tok)
    (hr : tokenize r = some (h :: hs)) (hh : h.isAirportHeader = true) :
    parseStep v ⟨A, [], []⟩ r = some ⟨A, [r], [h :: hs]⟩ := by
  unfold parseStep
  rw [hr]
  simp [hh]

/-- A header-line step on a nonempty buffer flushes it as an airport. -/
theorem parseStep_header_flush (v : Int) (A : List Airport) (R : List String)
    (T : List (List Tok)) (r : String) (h : Tok) (hs : List Tok)
    (hr : tokenize r = some (h :: hs)) (hh : h.isAirportHeader = true)
    (hT : T ≠ []) :
    parseStep v ⟨A, R, T⟩ r
      = some ⟨A ++ [Airport.mk R v T], [r], [h :: hs]⟩ := by
  unfold parseStep
  rw [hr]
  simp [hh, hT]

/-- A non-header line is appended to the buffer. -/
theorem parseStep_nonheader (v : Int) (A : List Airport) (R : List String)
    (T : List (List Tok)) (r : String) (h : Tok) (hs : List Tok)
    (hr : tokenize r = some (h :: hs)) (hh : h.isAirportHeader = false) :
    parseStep v ⟨A, R, T⟩ r = some ⟨A, R ++ [r], T ++ [h :: hs]⟩ := by
  unfold parseStep
  rw [hr]
  simp [hh]

theorem parseLoop_append (v : Int) (st : ParseState) (l₁ l₂ : List String) :
    parseLoop v st (l₁ ++ l₂)
      = (parseLoop v st l₁).bind (fun st' => parseLoop v st' l₂) := by
  induction l₁ generalizing st with
  | nil => rfl
  | cons l rest ih =>
    rw [List.cons_append]
    show (parseStep v st l).bind _ = ((parseStep v st l).bind _).bind _
    cases parseStep v st l with
    | none => rfl
    | some st' =>
      simp only [Option.some_bind]
      exact ih st'

/-- Replaying a run of non-header chained lines appends them to the
buffer. -/
theorem parseLoop_chain_nonheader (v : Int) {rs : List String}
    {ts : List (List Tok)} (hc : Chain rs ts)
    (hnh : ∀ t ∈ ts, NotHeaderL t) :
    ∀ (A : List Airport) (R : List String) (T : List (List Tok)),
      parseLoop v ⟨A, R, T⟩ rs = some ⟨A, R ++ rs, T ++ ts⟩ := by
  induction hc with
  | nil => intro A R T; simp [parseLoop]
  | cons hr ht hrest ih =>
    rename_i r t rs' ts'
    intro A R T
    obtain ⟨h, hs, rfl⟩ : ∃ h hs, t = h :: hs := by
      cases t with
      | nil => exact absurd rfl ht
      | cons x xs => exact ⟨x, xs, rfl⟩
    have hh : h.isAirportHeader = false :=
      hnh (h :: hs) (List.mem_cons_self _ _) h hs rfl
    show (parseStep v ⟨A, R, T⟩ r).bind _ = _
    rw [parseStep_nonheader v A R T r h hs hr hh]
    simp only [Option.some_bind]
    rw [ih (fun x hx => hnh x (List.mem_cons_of_mem _ hx)) A (R ++ [r]) (T ++ [h :: hs])]
    simp

/-- Replaying one airport's raw lines from an empty buffer loads exactly
that airport's buffers. -/
theorem parseLoop_first_airport (v : Int) (a : Airport) (A : List Airport)
    (hinv : AirportInv v a) (hne : a.tokenized_lines ≠ []) :
    parseLoop v ⟨A, [], []⟩ a.raw_lines = some ⟨A, a.raw_lines, a.tokenized_lines⟩ := by
  obtain ⟨rl, xv, tl⟩ := a
  obtain ⟨hv, hchain, htail⟩ := hinv
  dsimp only at hv hchain htail hne ⊢
  cases hchain with
  | nil => exact absurd rfl hne
  | cons hr ht hrest =>
    rename_i r t rs ts
    obtain ⟨h, hs, rfl⟩ : ∃ h hs, t = h :: hs := by
      cases t with
      | nil => exact absurd rfl ht
      | cons x xs => exact ⟨x, xs, rfl⟩
    have htail' : ∀ x ∈ ts, NotHeaderL x := by
      intro x hx
      exact htail x hx
    by_cases hh : h.isAirportHeader = true
    · show (parseStep v ⟨A, [], []⟩ r).bind _ = _
      rw [parseStep_header_empty v A r h hs hr hh]
      simp only [Option.some_bind]
      rw [parseLoop_chain_nonheader v hrest htail' A [r] [h :: hs]]
      simp
    · show (parseStep v ⟨A, [], []⟩ r).bind _ = _
      rw [parseStep_nonheader v A [] [] r h hs hr (by simpa using hh)]
      simp only [Option.some_bind]
      rw [parseLoop_chain_nonheader v hrest htail' A ([] ++ [r]) ([] ++ [h :: hs])]
      simp

/-- The loop state reached after replaying the chunks of `as` from a
buffer holding `cur`: every chunk boundary flushes the previous
airport, and the last airport stays in the buffer. -/
def endState (v : Int) : List Airport → Airport → List Airport → ParseState
  | A, cur, [] => ⟨A, cur.raw_lines, cur.tokenized_lines⟩
  | A, cur, a :: rest =>
    endState v (A ++ [Airport.mk cur.raw_lines v cur.tokenized_lines]) a rest

theorem serializeChunk_of_ne_nil (a : Airport) (r : String) (rs : List String)
    (h : a.raw_lines = r :: rs) : serializeChunk a = (r :: rs) ++ [""] := by
  unfold serializeChunk
  rw [h]

/-- Replaying the serialized chunks of headed airports from a nonempty
buffer. -/
theorem parseLoop_chunks (v : Int) (as : List Airport) :
    ∀ (A : List Airport) (cur : Airport),
      (∀ a ∈ as, AirportInv v a ∧ HeadedT a.tokenized_lines ∧ a.tokenized_lines ≠ []) →
      cur.tokenized_lines ≠ [] →
      parseLoop v ⟨A, cur.raw_lines, cur.tokenized_lines⟩ (serializeChunks as)
        = some (endState v A cur as) := by
  induction as with
  | nil =>
    intro A cur _ _
    rfl
  | cons a rest ih =>
    intro A cur hall hcur
    obtain ⟨⟨hv, hchain, htail⟩, hheaded, hne⟩ := hall a (List.mem_cons_self a rest)
    obtain ⟨h, hs, trest, htoks, hh⟩ := hheaded
    obtain ⟨r, rrest, hraw⟩ : ∃ r rrest, a.raw_lines = r :: rrest := by
      have hrne : a.raw_lines ≠ [] := hchain.ne_nil_left hne
      cases hr : a.raw_lines with
      | nil => exact absurd hr hrne
      | cons x xs => exact ⟨x, xs, rfl⟩
    show parseLoop v _ (serializeChunk a ++ serializeChunks rest) = _
    rw [serializeChunk_of_ne_nil a r rrest hraw, parseLoop_append, parseLoop_append]
    -- replay a's raw lines: header line flushes cur, the rest appends
    have hchain' : Chain (r :: rrest) ((h :: hs) :: trest) := by
      rw [← hraw, ← htoks]
      exact hchain
    cases hchain' with
    | cons hr0 ht0 hcrest =>
      have hstep := parseStep_header_flush v A cur.raw_lines cur.tokenized_lines r h hs
        hr0 hh (by
          intro hne'
          exact hcur hne')
      show (((parseStep v ⟨A, cur.raw_lines, cur.tokenized_lines⟩ r).bind _).bind _).bind _
        = _
      rw [hstep]
      simp only [Option.some_bind]
      have htail' : ∀ x ∈ trest, NotHeaderL x := by
        intro x hx
        apply htail
        rw [htoks]
        exact hx
      rw [parseLoop_chain_nonheader v hcrest htail'
        (A ++ [Airport.mk cur.raw_lines v cur.tokenized_lines]) [r] [h :: hs]]
      simp only [Option.some_bind]
      -- the blank separator line
      rw [parseLoop, parseStep_blank v _ "" (by decide)]
      simp only [Option.bind_eq_bind, Option.some_bind]
      show parseLoop v ⟨A ++ [Airport.mk cur.raw_lines v cur.tokenized_lines],
          r :: rrest, (h :: hs) :: trest⟩ (serializeChunks rest)
        = some (endState v A cur (a :: rest))
      rw [← hraw, ← htoks,
        ih (A ++ [Airport.mk cur.raw_lines v cur.tokenized_lines]) a
          (fun x hx => hall x (List.mem_cons_of_mem a hx)) hne]
      rfl

/-- Flattening `endState`: flushed airports plus the rebuilt buffer give
back the original airport list. -/
theorem endState_spec (v : Int) (as : List Airport) :
    ∀ (A : List Airport) (cur : Airport),
      cur.xplane_version = v → (∀ a ∈ as, a.xplane_version = v) →
      (endState v A cur as).airports
          ++ [Airport.mk (endState v A cur as).raw v (endState v A cur as).toks]
        = A ++ cur :: as := by
  induction as with
  | nil =>
    intro A cur hv _
    show A ++ [Airport.mk cur.raw_lines v cur.tokenized_lines] = A ++ [cur]
    obtain ⟨rl, xv, tl⟩ := cur
    simp only at hv
    rw [hv]
  | cons a rest ih =>
    intro A cur hv hall
    show (endState v (A ++ [Airport.mk cur.raw_lines v cur.tokenized_lines]) a rest).airports
        ++ [Airport.mk
          (endState v (A ++ [Airport.mk cur.raw_lines v cur.tokenized_lines]) a rest).raw v
          (endState v (A ++ [Airport.mk cur.raw_lines v cur.tokenized_lines]) a rest).toks]
        = A ++ cur :: a :: rest
    rw [ih (A ++ [Airport.mk cur.raw_lines v cur.tokenized_lines]) a
      (hall a (List.mem_cons_self a rest))
      (fun x hx => hall x (List.mem_cons_of_mem a hx))]
    obtain ⟨rl, xv, tl⟩ := cur
    simp only at hv
    rw [hv]
    simp

/-- Complete case analysis of one parser step. -/
theorem parseStep_cases (v : Int) (st st' : ParseState) (line : String)
    (h : parseStep v st line = some st') :
    (tokenize line = some [] ∧ st' = st) ∨
    (∃ t0 ts, tokenize line = some (t0 :: ts) ∧ t0.isAirportHeader = true ∧
      st.toks = [] ∧ st' = ⟨st.airports, [line], [t0 :: ts]⟩) ∨
    (∃ t0 ts, tokenize line = some (t0 :: ts) ∧ t0.isAirportHeader = true ∧
      st.toks ≠ [] ∧
      st' = ⟨st.airports ++ [Airport.mk st.raw v st.toks], [line], [t0 :: ts]⟩) ∨
    (∃ t0 ts, tokenize line = some (t0 :: ts) ∧ t0.isAirportHeader = false ∧
      st' = ⟨st.airports, st.raw ++ [line], st.toks ++ [t0 :: ts]⟩) := by
  unfold parseStep at h
  cases htok : tokenize line with
  | none => rw [htok] at h; exact Option.noConfusion h
  | some tokenized =>
    rw [htok] at h
    simp only [Option.bind_eq_bind, Option.some_bind] at h
    cases tokenized with
    | nil =>
      left
      exact ⟨rfl, (Option.some.inj h).symm⟩
    | cons t0 ts =>
      right
      by_cases hh : t0.isAirportHeader = true
      · by_cases hT : st.toks = []
        · left
          refine ⟨t0, ts, rfl, hh, hT, ?_⟩
          simp only [hh, if_true, hT, if_pos rfl] at h
          exact (Option.some.inj h).symm
        · right; left
          refine ⟨t0, ts, rfl, hh, hT, ?_⟩
          simp only [hh, if_true, hT, if_false] at h
          exact (Option.some.inj h).symm
      · right; right
        refine ⟨t0, ts, rfl, by simpa using hh, ?_⟩
        simp only [hh, Bool.false_eq_true, if_false] at h
        exact (Option.some.inj h).symm

theorem parseStep_inv (v : Int) (st st' : ParseState) (line : String)
    (h : parseStep v st line = some st') (hinv : StInv v st) : StInv v st' := by
  obtain ⟨hA, hAtail, hchain, htail, hheaded⟩ := hinv
  rcases parseStep_cases v st st' line h with
    ⟨_, rfl⟩ | ⟨t0, ts, htok, hh, hT, rfl⟩ | ⟨t0, ts, htok, hh, hT, rfl⟩ |
    ⟨t0, ts, htok, hh, rfl⟩
  · exact ⟨hA, hAtail, hchain, htail, hheaded⟩
  · refine ⟨hA, hAtail, Chain.cons htok (by simp) Chain.nil, by simp [NotHeaderL], ?_⟩
    intro _
    exact ⟨t0, ts, [], rfl, hh⟩
  · refine ⟨?_, ?_, Chain.cons htok (by simp) Chain.nil, by simp [NotHeaderL], ?_⟩
    · intro a ha
      rcases List.mem_append.mp ha with ha' | ha'
      · exact hA a ha'
      · rcases List.mem_singleton.mp ha' with rfl
        exact ⟨rfl, hchain, htail⟩
    · intro a ha
      cases hAs : st.airports with
      | nil =>
        rw [hAs] at ha
        simp at ha
      | cons a0 arest =>
        rw [hAs] at ha
        simp only [List.cons_append, List.tail_cons] at ha
        rcases List.mem_append.mp ha with ha' | ha'
        · exact hAtail a (by rw [hAs]; simpa using ha')
        · rcases List.mem_singleton.mp ha' with rfl
          show HeadedT st.toks
          exact hheaded (by rw [hAs]; simp)
    · intro _
      exact ⟨t0, ts, [], rfl, hh⟩
  · refine ⟨hA, hAtail, hchain.append_singleton htok (by simp), ?_, ?_⟩
    · intro t ht
      cases hts : st.toks with
      | nil =>
        rw [hts] at ht
        simp at ht
      | cons T0 Trest =>
        rw [hts] at ht
        simp only [List.cons_append, List.tail_cons] at ht
        rcases List.mem_append.mp ht with ht' | ht'
        · exact htail t (by rw [hts]; simpa using ht')
        · rcases List.mem_singleton.mp ht' with rfl
          intro x xs hx
          rw [List.cons.injEq] at hx
          rw [← hx.1]
          exact hh
    · intro hAne
      obtain ⟨h0, hs0, rest0, heq, hhd⟩ := hheaded hAne
      exact ⟨h0, hs0, rest0 ++ [t0 :: ts], by rw [heq]; simp, hhd⟩

theorem parseLoop_inv (v : Int) (lines : List String) :
    ∀ (st st' : ParseState), parseLoop v st lines = some st' → StInv v st →
      StInv v st' := by
  induction lines with
  | nil =>
    intro st st' h hinv
    rw [show st' = st from (Option.some.inj h).symm]
    exact hinv
  | cons l rest ih =>
    intro st st' h hinv
    unfold parseLoop at h
    cases hstep : parseStep v st l with
    | none =>
      rw [hstep] at h
      exact Option.noConfusion h
    | some st1 =>
      rw [hstep] at h
      simp only [Option.bind_eq_bind, Option.some_bind] at h
      exact ih st1 st' h (parseStep_inv v st st1 l hstep hinv)

/-- The invariants carried by the airports `parseBody` produces. -/
theorem parseBody_inv (v : Int) (lines : List String) (as : List Airport)
    (h : parseBody v lines = some as) :
    (∀ a ∈ as, AirportInv v a) ∧ (∀ a ∈ as.tail, HeadedT a.tokenized_lines) := by
  unfold parseBody at h
  cases hloop : parseLoop v ⟨[], [], []⟩ lines with
  | none => rw [hloop] at h; exact Option.noConfusion h
  | some st =>
    rw [hloop] at h
    simp only [Option.bind_eq_bind, Option.some_bind] at h
    have hst : StInv v st := parseLoop_inv v lines ⟨[], [], []⟩ st hloop
      ⟨by simp, by simp, Chain.nil, by simp, by simp⟩
    obtain ⟨hA, hAtail, hchain, htail, hheaded⟩ := hst
    have main : ∀ (raw' : List String) (toks' : List (List Tok)),
        Chain raw' toks' → (∀ t ∈ toks'.tail, NotHeaderL t) →
        (st.airports ≠ [] → HeadedT toks') →
        as = st.airports ++ [Airport.mk raw' v toks'] →
        (∀ a ∈ as, AirportInv v a) ∧ (∀ a ∈ as.tail, HeadedT a.tokenized_lines) := by
      intro raw' toks' hc ht hhd has
      subst has
      constructor
      · intro a ha
        rcases List.mem_append.mp ha with ha' | ha'
        · exact hA a ha'
        · rcases List.mem_singleton.mp ha' with rfl
          exact ⟨rfl, hc, ht⟩
      · intro a ha
        cases hAs : st.airports with
        | nil =>
          rw [hAs] at ha
          simp at ha
        | cons a0 arest =>
          rw [hAs] at ha
          simp only [List.cons_append, List.tail_cons] at ha
          rcases List.mem_append.mp ha with ha' | ha'
          · exact hAtail a (by rw [hAs]; simpa using ha')
          · rcases List.mem_singleton.mp ha' with rfl
            exact hhd (by rw [hAs]; simp)
    cases hts : st.toks with
    | nil =>
      rw [hts] at h
      have has : as = st.airports := (Option.some.inj h).symm
      subst has
      refine ⟨hA, hAtail⟩
    | cons T0 Trest =>
      rw [hts] at h
      rw [List.getLast?_eq_getLast (T0 :: Trest) (by simp)] at h
      simp only [Option.bind_eq_bind, Option.some_bind] at h
      cases hLh : ((T0 :: Trest).getLast (by simp)).head? with
      | none => rw [hLh] at h; exact Option.noConfusion h
      | some t0' =>
        rw [hLh] at h
        simp only [Option.some_bind] at h
        by_cases hpop : t0' = Tok.code 99
        · simp only [hpop, if_pos rfl] at h
          refine main st.raw.dropLast st.toks.dropLast hchain.dropLast ?_ ?_
            (by
              have := (Option.some.inj h).symm
              rw [hts]
              exact this)
          · intro t htmem
            rw [hts] at htmem
            cases hTrest : Trest with
            | nil =>
              rw [hTrest] at htmem
              simp at htmem
            | cons r1 rs1 =>
              rw [hTrest, List.dropLast_cons₂, List.tail_cons] at htmem
              apply htail
              rw [hts, List.tail_cons, hTrest]
              exact List.dropLast_subset _ htmem
          · intro hAne
            obtain ⟨h0, hs0, rest0, heq, hhd0⟩ := hheaded hAne
            have heq2 : T0 :: Trest = (h0 :: hs0) :: rest0 := by rw [← hts, heq]
            have hT0 : T0 = h0 :: hs0 := (List.cons.inj heq2).1
            have hTr : Trest = rest0 := (List.cons.inj heq2).2
            cases hrest0 : rest0 with
            | nil =>
              exfalso
              have hLval : (T0 :: Trest).getLast (by simp) = h0 :: hs0 := by
                rw [hT0, hTr, hrest0]
                apply List.getLast_singleton
              rw [hLval] at hLh
              simp only [List.head?_cons, Option.some.injEq] at hLh
              rw [hLh, hpop] at hhd0
              exact absurd hhd0 (by decide)
            | cons r1 rs1 =>
              rw [heq, hrest0, List.dropLast_cons₂]
              exact ⟨h0, hs0, (r1 :: rs1).dropLast, rfl, hhd0⟩
        · simp only [hpop, if_neg hpop] at h
          refine main st.raw st.toks hchain htail hheaded
            (by
              have := (Option.some.inj h).symm
              rw [hts]
              exact this)

/-- Finishing `parseBody` when the loop ended with a trailing `99`
record in the buffer: the terminator is popped and the buffer is
flushed. -/
theorem parseBody_eq_of_trailing_term (v : Int) (lines : List String)
    (st : ParseState) (hloop : parseLoop v ⟨[], [], []⟩ lines = some st)
    (R : List String) (T : List (List Tok))
    (hraw : st.raw = R ++ ["99"]) (htoks : st.toks = T ++ [[Tok.code 99]]) :
    parseBody v lines = some (st.airports ++ [Airport.mk R v T]) := by
  unfold parseBody
  rw [hloop]
  simp only [Option.bind_eq_bind, Option.some_bind]
  rw [htoks, hraw]
  cases T with
  | nil =>
    simp [List.dropLast_concat]
  | cons t ts =>
    simp only [List.cons_append]
    have hg : (t :: (ts ++ [[Tok.code 99]])).getLast? = some [Tok.code 99] := by
      rw [← List.cons_append]
      exact List.getLast?_concat _
    have hd1 : (t :: (ts ++ [[Tok.code 99]])).dropLast = t :: ts := by
      rw [← List.cons_append]
      exact List.dropLast_concat ..
    rw [hg]
    simp only [Option.bind_eq_bind, Option.some_bind, List.head?_cons, if_true]
    rw [List.dropLast_concat, hd1]
    rfl

/-- Replaying the serialized body of a nonempty airport list whose
airports all satisfy the parser invariants reproduces exactly that
list. -/
theorem parseBody_serialize (v : Int) (as : List Airport)
    (hinv : ∀ a ∈ as, AirportInv v a)
    (hheads : ∀ a ∈ as.tail, HeadedT a.tokenized_lines)
    (hne : as ≠ [])
    (hallne : ∀ a ∈ as, a.tokenized_lines ≠ []) :
    parseBody v ("" :: (serializeChunks as ++ ["99"])) = some as := by
  obtain ⟨a1, rest, rfl⟩ : ∃ a1 rest, as = a1 :: rest := by
    cases as with
    | nil => exact absurd rfl hne
    | cons x xs => exact ⟨x, xs, rfl⟩
  have ha1 : AirportInv v a1 := hinv a1 (List.mem_cons_self _ _)
  have ha1ne : a1.tokenized_lines ≠ [] := hallne a1 (List.mem_cons_self _ _)
  have ha1raw : ∃ r rs, a1.raw_lines = r :: rs := by
    have : a1.raw_lines ≠ [] := ha1.2.1.ne_nil_left ha1ne
    cases hr : a1.raw_lines with
    | nil => exact absurd hr this
    | cons x xs => exact ⟨x, xs, rfl⟩
  obtain ⟨r, rs, hraw1⟩ := ha1raw
  -- run the loop over the serialized lines
  have hloop : parseLoop v ⟨[], [], []⟩ ("" :: (serializeChunks (a1 :: rest) ++ ["99"]))
      = some ⟨(endState v [] a1 rest).airports,
          (endState v [] a1 rest).raw ++ ["99"],
          (endState v [] a1 rest).toks ++ [[Tok.code 99]]⟩ := by
    rw [parseLoop, parseStep_blank v _ "" (by decide)]
    simp only [Option.bind_eq_bind, Option.some_bind]
    show parseLoop v ⟨[], [], []⟩
      ((serializeChunk a1 ++ serializeChunks rest) ++ ["99"]) = _
    rw [serializeChunk_of_ne_nil a1 r rs hraw1, ← hraw1]
    rw [show ((a1.raw_lines ++ [""]) ++ serializeChunks rest) ++ ["99"]
        = a1.raw_lines ++ ([""] ++ (serializeChunks rest ++ ["99"])) by simp]
    rw [parseLoop_append, parseLoop_first_airport v a1 [] ha1 ha1ne]
    simp only [Option.some_bind]
    rw [parseLoop_append, parseLoop, parseStep_blank v _ "" (by decide)]
    simp only [Option.bind_eq_bind, Option.some_bind]
    rw [show parseLoop v ⟨[], a1.raw_lines, a1.tokenized_lines⟩ ([] : List String)
        = some ⟨[], a1.raw_lines, a1.tokenized_lines⟩ from rfl]
    simp only [Option.some_bind]
    rw [parseLoop_append]
    rw [parseLoop_chunks v rest [] a1
      (fun x hx => ⟨hinv x (List.mem_cons_of_mem _ hx), hheads x hx,
        hallne x (List.mem_cons_of_mem _ hx)⟩) ha1ne]
    simp only [Option.some_bind]
    show (parseStep v _ "99").bind _ = _
    rw [parseStep_nonheader v _ _ _ "99" (Tok.code 99) [] (by decide) (by decide)]
    rfl
  rw [parseBody_eq_of_trailing_term v _ _ hloop (endState v [] a1 rest).raw
    (endState v [] a1 rest).toks rfl rfl]
  rw [endState_spec v rest [] a1 ha1.1 (fun x hx => (hinv x (List.mem_cons_of_mem _ hx)).1)]
  rfl

/-- The version bound and the loop invariants extracted from a
successful whole-file parse. -/
theorem parseText_inv (ls : List String) (d : AptDat) (h : parseText ls = some d) :
    d.xplane_version < 9999 ∧ (∀ a ∈ d.airports, AirportInv d.xplane_version a) ∧
    (∀ a ∈ d.airports.tail, HeadedT a.tokenized_lines) := by
  unfold parseText parseTextV at h
  cases ls with
  | nil => exact Option.noConfusion h
  | cons l0 rest0 =>
    dsimp only at h
    have fin : ∀ (v : Int) (body : List String), v < 9999 →
        (parseBody v body >>= fun airports =>
          pure (⟨airports, v⟩ : AptDat)) = some d →
        d.xplane_version < 9999 ∧ (∀ a ∈ d.airports, AirportInv d.xplane_version a) ∧
        (∀ a ∈ d.airports.tail, HeadedT a.tokenized_lines) := by
      intro v body hlt hb
      cases hres : parseBody v body with
      | none =>
        rw [hres] at hb
        exact Option.noConfusion hb
      | some as =>
        rw [hres] at hb
        have hd : (⟨as, v⟩ : AptDat) = d := Option.some.inj hb
        subst hd
        obtain ⟨h1, h2⟩ := parseBody_inv v body as hres
        exact ⟨hlt, h1, h2⟩
    by_cases h0 : pyStrip l0 = "A" ∨ pyStrip l0 = "I"
    · rw [if_pos h0] at h
      cases rest0 with
      | nil => exact Option.noConfusion h
      | cons l1 rest1 =>
        dsimp only at h
        by_cases h1 : containsSubS wedSignature l1 = true
        · rw [if_pos h1] at h
          cases hv : pyInt? (firstSpaceTok l1) with
          | none =>
            rw [hv] at h
            exact Option.noConfusion h
          | some v =>
            rw [hv] at h
            replace h : (if v < 9999 then
                (parseBody v rest1 >>= fun airports =>
                  pure (⟨airports, v⟩ : AptDat)) else none) = some d := h
            by_cases hlt : v < 9999
            · rw [if_pos hlt] at h
              exact fin v rest1 hlt h
            · rw [if_neg hlt] at h
              exact Option.noConfusion h
        · rw [if_neg h1] at h
          exact fin 1100 (l0 :: l1 :: rest1) (by norm_num) h
    · rw [if_neg h0] at h
      exact fin 1100 (l0 :: rest0) (by norm_num) h

/-- **C2** (amended).  For a container parsed from valid input that is
nonempty and holds no degenerate empty airport, reparsing the
serialized form reproduces the airports exactly — same count, same
identifiers in order, same raw and tokenized content — and the same
version.  (The counterexample shows the nonemptiness conditions are
necessary: an empty container reparses to one empty airport.) -/
theorem c2_parse_serialize_roundtrip (ls : List String) (d : AptDat)
    (h : parseText ls = some d) (hne : d.airports ≠ [])
    (hall : ∀ a ∈ d.airports, a.tokenized_lines ≠ []) :
    parseText d.serializeLines = some ⟨d.airports, d.xplane_version⟩ := by
  obtain ⟨hlt, hinv, hheads⟩ := parseText_inv ls d h
  have hser : d.serializeLines
      = "I" :: versionLine d.xplane_version
          :: ("" :: (serializeChunks d.airports ++ ["99"])) := by
    unfold AptDat.serializeLines versionLine
    simp
  rw [hser]
  show parseTextV 1100 _ = _
  unfold parseTextV
  dsimp only
  rw [if_pos (Or.inr (show pyStrip "I" = "I" by decide)),
    if_pos (containsSubS_versionLine d.xplane_version),
    pyInt?_firstSpaceTok_versionLine d.xplane_version]
  simp only [Option.bind_eq_bind, Option.some_bind]
  rw [if_pos hlt,
    parseBody_serialize d.xplane_version d.airports hinv hheads hne hall]
  rfl

/-- **C2** (counterexample).  A container parsed from a header-only
file is empty; its serialized form (header, blank line, terminator)
reparses to a container holding one degenerate empty airport, so
`parse(serialize(x))` does not preserve the airport count. -/
theorem c2_counterexample :
    parseText ["I", "1100 Generated by WorldEditor"] = some ⟨[], 1100⟩ ∧
    parseText (AptDat.serializeLines ⟨[], 1100⟩)
      = some ⟨[Airport.mk [] 1100 []], 1100⟩ := by
  constructor
  · decide
  · decide

/-- The container parsed from a small single-airport file, used to
witness C2. -/
def c2Example : AptDat :=
  AptDat.mk
    [Airport.mk ["1 100 1 0 XYZ My Port"] 1000
      [[Tok.code 1, Tok.str "100", Tok.str "1", Tok.str "0", Tok.str "XYZ",
        Tok.str "My", Tok.str "Port"]]]
    1000

/-- **C2** (witness): the round trip at a concrete parsed container. -/
theorem c2_witness :
    parseText ["I", "1000 Generated by WorldEditor", "1 100 1 0 XYZ My Port", "99"]
      = some c2Example ∧
    c2Example.airports ≠ [] ∧
    (∀ a ∈ c2Example.airports, a.tokenized_lines ≠ []) ∧
    parseText c2Example.serializeLines = some ⟨c2Example.airports, c2Example.xplane_version⟩ :=
  ⟨by decide, by decide, by decide,
    c2_parse_serialize_roundtrip
      ["I", "1000 Generated by WorldEditor", "1 100 1 0 XYZ My Port", "99"]
      c2Example (by decide) (by decide) (by decide)⟩

end XPAirports
